import Mathlib

/-!
Shallow embedding of the sciborg core (typed command/parameter model,
workflow executor and command interpreter) from:
  src/core/parameter/base.py
  src/core/command/base.py
  src/core/workflow/base.py
  src/core/library/base.py
  src/utils/interpreter/base.py

Python dictionaries are modelled as insertion-ordered association lists
(`List (String × α)`); in-place mutation is modelled by threading the
mutated state through return values; a raised exception is modelled by
`Except`, with the partially-mutated state carried alongside the error
whenever the caller can still observe it.  Python floats are modelled as
rationals (every float literal appearing in the claims is exactly
representable, and order/equality on exactly-represented doubles agree
with the rational order).
-/

namespace Sciborg

/-- The four primitive data types of `ParameterModel.data_type`
(`Literal["str", "int", "float", "bool"]`). -/
inductive DType
| dstr
| dint
| dfloat
| dbool
deriving DecidableEq, Repr

/-- A primitive Python value (int, str, float or bool). -/
inductive PVal
| vInt (n : Int)
| vStr (s : String)
| vFloat (q : Rat)
| vBool (b : Bool)
deriving DecidableEq, Repr

/-- A `ValueType` value: a scalar primitive or a list of primitives
(`ValueType = int | str | float | bool | List[...]`). -/
inductive VT
| s (v : PVal)
| l (vs : List PVal)
deriving DecidableEq, Repr

/-- A nullable runtime value (`ValueType | None`). -/
abbrev Val := Option VT

/-- Numeric view of a Python value: Python compares int, float and bool
numerically (`True == 1`). Strings have no numeric view. -/
def PVal.toRat? : PVal → Option Rat
| .vInt n => some (n : Rat)
| .vFloat q => some q
| .vBool b => some (if b then 1 else 0)
| .vStr _ => none

/-- Python `<=` on two primitives of comparable type. Mixed numeric
comparisons are numeric; strings compare lexicographically; comparing a
string with a number is a `TypeError` in Python, modelled as `false`
(never reached by the source: the code compares only values already cast
to the same data type). -/
def pyLE (a b : PVal) : Bool :=
  match a, b with
  | .vStr s, .vStr t => decide (s ≤ t)
  | _, _ =>
    match a.toRat?, b.toRat? with
    | some x, some y => decide (x ≤ y)
    | _, _ => false

/-- Python `<` on two primitives of comparable type (same conventions as
`pyLE`). -/
def pyLT (a b : PVal) : Bool :=
  match a, b with
  | .vStr s, .vStr t => decide (s < t)
  | _, _ =>
    match a.toRat?, b.toRat? with
    | some x, some y => decide (x < y)
    | _, _ => false

/-- Python `==` on two primitives: numeric kinds compare numerically
(`1 == 1.0 == True`), strings compare as strings, a string never equals
a number. -/
def pyEq (a b : PVal) : Bool :=
  match a, b with
  | .vStr s, .vStr t => s == t
  | .vStr _, _ => false
  | _, .vStr _ => false
  | _, _ =>
    match a.toRat?, b.toRat? with
    | some x, some y => x == y
    | _, _ => false

/-- Python `isinstance(v, data_type)`; `bool` is a subclass of `int`, so
a bool is an instance of `int` as well. -/
def isinstanceOf (dt : DType) : PVal → Bool
| .vInt _ => dt == .dint
| .vBool _ => dt == .dbool || dt == .dint
| .vFloat _ => dt == .dfloat
| .vStr _ => dt == .dstr

/-- Truncation of a rational toward zero, as Python `int(float)` does. -/
def ratTruncToInt (q : Rat) : Int :=
  if q < 0 then -((-q).floor) else q.floor

/-- Best-effort rendering of a primitive as Python `str(x)`.  Exact only
where the claims use it (the claims never cast non-strings to `str`);
the float rendering is an approximation of the CPython repr. -/
def pyStr : PVal → String
| .vStr s => s
| .vInt n => toString n
| .vBool b => if b then "True" else "False"
| .vFloat q => toString q.num ++ "/" ++ toString q.den

/-- Best-effort parse of a decimal string as Python `float(str)` would:
an optional sign, an integer part, an optional fractional part.  Exotic
float syntax (exponents, `inf`, `nan`) is not modelled; no claim casts a
string to float. -/
def parseFloat? (s : String) : Option Rat :=
  let t := s.trim
  match t.split (fun c => c = '.') with
  | [intPart] => (intPart.toInt?).map (fun n => (n : Rat))
  | [intPart, fracPart] =>
    match intPart.toInt?, fracPart.toNat? with
    | some n, some f =>
      let den : Nat := 10 ^ fracPart.length
      let frac : Rat := (f : Rat) / (den : Rat)
      some (if n < 0 || intPart.startsWith "-" then (n : Rat) - frac else (n : Rat) + frac)
    | _, _ => none
  | _ => none

/-- A raw Python-level cast `data_type(x)`: `int(x)` truncates floats and
parses integer strings, `float(x)` widens ints and parses decimal
strings, `str(x)` always succeeds, `bool(x)` is truthiness.  `none`
models the cast raising. -/
def pyCast (dt : DType) (v : PVal) : Option PVal :=
  match dt, v with
  | .dint, .vInt n => some (.vInt n)
  | .dint, .vBool b => some (.vInt (if b then 1 else 0))
  | .dint, .vFloat q => some (.vInt (ratTruncToInt q))
  | .dint, .vStr s => (s.trim.toInt?).map .vInt
  | .dfloat, .vFloat q => some (.vFloat q)
  | .dfloat, .vInt n => some (.vFloat (n : Rat))
  | .dfloat, .vBool b => some (.vFloat (if b then 1 else 0))
  | .dfloat, .vStr s => (parseFloat? s).map .vFloat
  | .dstr, w => some (.vStr (pyStr w))
  | .dbool, .vBool b => some (.vBool b)
  | .dbool, .vInt n => some (.vBool (n != 0))
  | .dbool, .vFloat q => some (.vBool (q != 0))
  | .dbool, .vStr s => some (.vBool (s != ""))

/-- Pydantic v2 lax coercion of an assigned scalar into a field annotated
with the declared data type: identical type passes through, int widens
to float, a float with no fractional part narrows to int, numeric
strings parse, `bool` is never accepted for `int`/`float` fields and
numbers 0/1 (or the usual strings) are accepted for `bool` fields;
nothing coerces to `str`.  `none` models a pydantic validation error. -/
def pydanticCoerce (dt : DType) (v : PVal) : Option PVal :=
  match dt, v with
  | .dint, .vInt n => some (.vInt n)
  | .dint, .vFloat q => if q.den == 1 then some (.vInt q.num) else none
  | .dint, .vStr s => (s.trim.toInt?).map .vInt
  | .dint, .vBool _ => none
  | .dfloat, .vFloat q => some (.vFloat q)
  | .dfloat, .vInt n => some (.vFloat (n : Rat))
  | .dfloat, .vStr s => (parseFloat? s).map .vFloat
  | .dfloat, .vBool _ => none
  | .dstr, .vStr s => some (.vStr s)
  | .dstr, _ => none
  | .dbool, .vBool b => some (.vBool b)
  | .dbool, .vInt n => if n == 0 then some (.vBool false) else if n == 1 then some (.vBool true) else none
  | .dbool, .vFloat q => if q == 0 then some (.vBool false) else if q == 1 then some (.vBool true) else none
  | .dbool, .vStr s =>
    if s ∈ ["true", "True", "1", "yes", "on"] then some (.vBool true)
    else if s ∈ ["false", "False", "0", "no", "off"] then some (.vBool false)
    else none

/-- The `Parameter` shell model (`src/core/parameter/base.py`, class
`Parameter`): a value plus indirection metadata. -/
structure Parameter where
  value : Val := none
  desc : String := ""
  from_var : Bool := false
  var_name : String := ""
deriving DecidableEq, Repr

/-- The declarative parameter specification (`ParameterModel`).  The
`precision` field is carried but, as in the source, never used by any
validator. -/
structure ParameterModel where
  name : String
  data_type : DType
  precision : Int := -1
  upper_limit : Option PVal := none
  lower_limit : Option PVal := none
  allowed_values : List PVal := []
  is_optional : Bool := false
  is_list : Bool := false
  default : Val := none
  from_var : Bool := false
  var_name : String := ""
  desc : String := ""
deriving DecidableEq, Repr

/-- Errors raised while validating a `ParameterModel` at construction,
one constructor per `raise` site of `_validate_limits`,
`_validate_allowed_values` and `_validate_default`. -/
inductive SpecErr
| upperLimitType
| lowerLimitType
| limitRange
| allowedValuesType
| defaultType
| defaultAboveUpper
| defaultBelowLower
| defaultNotAllowed
deriving DecidableEq, Repr

namespace ParameterModel

/-- `_cast_limits`: best-effort cast of each limit to the data type; a
failing cast is swallowed and the limit left uncast. -/
def castLimits (m : ParameterModel) : ParameterModel :=
  { m with
    upper_limit := match m.upper_limit with
      | none => none
      | some u => match pyCast m.data_type u with
        | some u2 => some u2
        | none => some u
    lower_limit := match m.lower_limit with
      | none => none
      | some l => match pyCast m.data_type l with
        | some l2 => some l2
        | none => some l }

/-- `_cast_allowed_values`: `list(map(data_type, allowed_values))` is
all-or-nothing — if any element fails to cast the whole list is left
uncast. -/
def castAllowedValues (m : ParameterModel) : ParameterModel :=
  match m.allowed_values.mapM (pyCast m.data_type) with
  | some vs => { m with allowed_values := vs }
  | none => m

/-- `_cast_default`: best-effort cast of the default.  For a list
parameter, `list(map(data_type, default))` of a `None` or scalar default
raises and is swallowed; for a scalar parameter `data_type(default)` of
`None` raises and is swallowed, and a list default survives only the
`str` cast (Python `str([...])` succeeds, rendering the repr). -/
def castDefault (m : ParameterModel) : ParameterModel :=
  if m.is_list then
    match m.default with
    | some (.l vs) =>
      match vs.mapM (pyCast m.data_type) with
      | some vs2 => { m with default := some (.l vs2) }
      | none => m
    | some (.s (.vStr s)) =>
      -- list("abc") iterates the characters of the string
      match (s.toList.map (fun c => PVal.vStr (String.singleton c))).mapM (pyCast m.data_type) with
      | some vs2 => { m with default := some (.l vs2) }
      | none => m
    | _ => m
  else
    match m.default with
    | some (.s v) =>
      match pyCast m.data_type v with
      | some v2 => { m with default := some (.s v2) }
      | none => m
    | some (.l vs) =>
      -- only str() accepts a list (rendering its repr, approximated here)
      match m.data_type with
      | .dstr => { m with default := some (.s (.vStr (toString (repr vs)))) }
      | _ => m
    | none => m

/-- `_validate_limits`: each set limit must be an instance of the data
type, and `upper_limit < lower_limit` is a range error. -/
def validateLimits (m : ParameterModel) : Except SpecErr Unit := do
  match m.upper_limit with
  | some u => if isinstanceOf m.data_type u then pure () else throw .upperLimitType
  | none => pure ()
  match m.lower_limit with
  | some l => if isinstanceOf m.data_type l then pure () else throw .lowerLimitType
  | none => pure ()
  match m.upper_limit, m.lower_limit with
  | some u, some l => if pyLT u l then throw .limitRange else pure ()
  | _, _ => pure ()

/-- `_validate_allowed_values`: a non-empty allowed-values list must
contain only instances of the data type. -/
def validateAllowedValues (m : ParameterModel) : Except SpecErr Unit :=
  if m.allowed_values.length > 0 && !(m.allowed_values.all (isinstanceOf m.data_type)) then
    throw .allowedValuesType
  else
    pure ()

/-- `_validate_default`: the default (when set) must match the data type
(elementwise for a list parameter), obey both limits and appear in a
non-empty allowed-values list. -/
def validateDefault (m : ParameterModel) : Except SpecErr Unit :=
  match m.default with
  | none => pure ()
  | some dv =>
    if m.is_list then
      match dv with
      | .s _ => throw .defaultType
      | .l vs => do
        if !(vs.all (isinstanceOf m.data_type)) then throw .defaultType
        match m.upper_limit with
        | some u => if !(vs.all (fun e => pyLE e u)) then throw .defaultAboveUpper else pure ()
        | none => pure ()
        match m.lower_limit with
        | some l => if !(vs.all (fun e => pyLE l e)) then throw .defaultBelowLower else pure ()
        | none => pure ()
        if m.allowed_values.length > 0 && !(vs.all (fun e => m.allowed_values.any (pyEq e))) then
          throw .defaultNotAllowed
        else
          pure ()
    else
      match dv with
      | .l _ => throw .defaultType
      | .s v => do
        if !(isinstanceOf m.data_type v) then throw .defaultType
        match m.upper_limit with
        | some u => if pyLT u v then throw .defaultAboveUpper else pure ()
        | none => pure ()
        match m.lower_limit with
        | some l => if pyLT v l then throw .defaultBelowLower else pure ()
        | none => pure ()
        if m.allowed_values.length > 0 && !(m.allowed_values.any (pyEq v)) then
          throw .defaultNotAllowed
        else
          pure ()

/-- The `validate` model validator (mode `after`) of `ParameterModel`:
cast limits, allowed values and default (failures swallowed), then
validate limits, allowed values and default in that order.  The
returned model is the one pydantic construction yields. -/
def validateSpec (m0 : ParameterModel) : Except SpecErr ParameterModel := do
  let m := castDefault (castAllowedValues (castLimits m0))
  m.validateLimits
  m.validateAllowedValues
  m.validateDefault
  pure m

end ParameterModel

/-- Errors raised by the validators attached to a generated value
container (`_assign_model_validators`), one constructor per `raise`
site: a failed type cast / pydantic coercion, a value above the upper
limit (`OutOfRange`), below the lower limit (`OutOfRange`), or outside
the allowed values (`NotAllowed`). -/
inductive VErr
| typeCast
| upperLimit
| lowerLimit
| notAllowed
deriving DecidableEq, Repr

/-- The limit and allowed-values validators of a list container, run on
the already-cast elements in registration order (upper limit, lower
limit, allowed values). -/
def validateListChecks (m : ParameterModel) (vs : List PVal) : Except VErr Val := do
  match m.upper_limit with
  | some u => if !(vs.all (fun e => pyLE e u)) then throw .upperLimit else pure ()
  | none => pure ()
  match m.lower_limit with
  | some l => if !(vs.all (fun e => pyLE l e)) then throw .lowerLimit else pure ()
  | none => pure ()
  if m.allowed_values.length > 0 && !(vs.all (fun e => m.allowed_values.any (pyEq e))) then
    throw .notAllowed
  else
    pure (some (.l vs))

/-- Validation of an assignment to the `value` field of a built value
container (the class produced by `to_param`).  For a list parameter the
mode `before` validator casts every element (a `None` or non-iterable
scalar raises; a string iterates its characters), then the upper-limit,
lower-limit and allowed-values validators run over the elements.  For a
scalar parameter pydantic coerces the value to `Optional[data_type]`,
then the three validators run, each skipping `None`. -/
def validateValue (m : ParameterModel) (v : Val) : Except VErr Val :=
  if m.is_list then
    match v with
    | none => throw .typeCast
    | some (.s (.vStr s)) =>
      match (s.toList.map (fun c => PVal.vStr (String.singleton c))).mapM (pyCast m.data_type) with
      | none => throw .typeCast
      | some vs => validateListChecks m vs
    | some (.s _) => throw .typeCast
    | some (.l vs0) =>
      match vs0.mapM (pyCast m.data_type) with
      | none => throw .typeCast
      | some vs => validateListChecks m vs
  else
    match v with
    | none => pure none
    | some (.l _) => throw .typeCast
    | some (.s v0) =>
      match pydanticCoerce m.data_type v0 with
      | none => throw .typeCast
      | some v1 => do
        match m.upper_limit with
        | some u => if !(pyLE v1 u) then throw .upperLimit else pure ()
        | none => pure ()
        match m.lower_limit with
        | some l => if !(pyLE l v1) then throw .lowerLimit else pure ()
        | none => pure ()
        if m.allowed_values.length > 0 && !(m.allowed_values.any (pyEq v1)) then
          throw .notAllowed
        else
          pure (some (.s v1))

/-- A live instance of a generated container class: the generating
specification together with the current `Parameter` state. -/
structure ParamInstance where
  model : ParameterModel
  param : Parameter
deriving DecidableEq, Repr

/-- Instantiation `Value()` of a generated container class with no
arguments: the value is the (unvalidated, as pydantic does not validate
defaults) model default and the indirection metadata comes from the
specification. -/
def ParameterModel.mkInstance (m : ParameterModel) : ParamInstance :=
  { model := m
    param := { value := m.default, desc := m.desc, from_var := m.from_var, var_name := m.var_name } }

/-- Assignment `container.value = v` under `validate_assignment`: the
validators run on the incoming value; on success the (possibly coerced)
value is stored, on failure the assignment raises and the container is
unchanged (the caller keeps the old instance). -/
def ParamInstance.setValue (p : ParamInstance) (v : Val) : Except VErr ParamInstance :=
  match validateValue p.model v with
  | .ok v2 => .ok { p with param := { p.param with value := v2 } }
  | .error e => .error e

/-- Assignment as a total state transformer: pydantic's
`validate_assignment` leaves the field untouched when validation
raises. -/
def ParamInstance.assignOrKeep (p : ParamInstance) (v : Val) : ParamInstance :=
  match p.setValue v with
  | .ok p2 => p2
  | .error _ => p

/-! Insertion-ordered dictionaries, the model of Python `dict`. -/

/-- Lookup in an insertion-ordered dictionary. -/
def alistLookup {α : Type} : List (String × α) → String → Option α
| [], _ => none
| (k, v) :: rest, key => if k = key then some v else alistLookup rest key

/-- `key in d` on a Python dictionary. -/
def alistHasKey {α : Type} (d : List (String × α)) (key : String) : Bool :=
  (alistLookup d key).isSome

/-- `d[key] = v` on a Python dictionary: update in place preserving the
key's position, appending the key when absent. -/
def alistSet {α : Type} : List (String × α) → String → α → List (String × α)
| [], key, v => [(key, v)]
| (k, w) :: rest, key, v =>
  if k = key then (k, v) :: rest else (k, w) :: alistSet rest key v

/-- Ordered keys of a Python dictionary. -/
def alistKeys {α : Type} (d : List (String × α)) : List String := d.map Prod.fst

/-! The command tiers (`src/core/command/base.py`). -/

/-- The runtime parameter state of a driver command: the `_parameters`
private dictionary of built value containers. -/
abbrev Params := List (String × ParamInstance)

/-- A workflow global-variable scope (`wf_globals`) and a command result
dictionary, both holding arbitrary runtime values. -/
abbrev Globals := List (String × Val)

/-- A result dictionary returned by a bound callable. -/
abbrev ResultDict := List (String × Val)

/-- A keyword-argument map passed to `invoke`. -/
abbrev KW := List (String × Val)

/-- A `save_vars` map: result key to global variable name. -/
abbrev SV := List (String × String)

/-- A bound callable: a total function from the resolved argument
dictionary to either a result dictionary or a raised exception
(`Except.error`). -/
abbrev Fn := List (String × Val) → Except Unit ResultDict

/-- The current values of the runtime parameters, as snapshotted by
`_update_parameters` (`prev_args`) and as extracted into the call
arguments (`args`). -/
def paramValues (ps : Params) : List (String × Val) :=
  ps.map (fun kp => (kp.1, kp.2.param.value))

/-- Assignment `self._parameters[key].value = v`: validated assignment to
the container stored under `key`.  The source only ever assigns keys
present in the dictionary; an absent key leaves the state unchanged
(unreachable). -/
def setParamValue : Params → String → Val → Except VErr Params
| [], _, _ => .ok []
| (k, p) :: rest, key, v =>
  if k = key then
    match p.setValue v with
    | .ok p2 => .ok ((k, p2) :: rest)
    | .error e => .error e
  else
    match setParamValue rest key v with
    | .ok rest2 => .ok ((k, p) :: rest2)
    | .error e => .error e

/-- A run command (`BaseRunCommand`): concrete value containers plus the
`save_vars` map.  The containers are plain `Parameter` state — only
their `value`, `from_var` and `var_name` are ever read downstream. -/
structure RunCommand where
  name : String
  microservice : String
  uuid : String
  save_vars : SV := []
  parameters : List (String × Parameter) := []
deriving DecidableEq, Repr

/-- `BaseRunCommand.to_kwargs`: the values of all non-indirected
parameters, in dictionary order. -/
def RunCommand.to_kwargs (rc : RunCommand) : KW :=
  rc.parameters.filterMap (fun kp => if kp.2.from_var then none else some (kp.1, kp.2.value))

/-- An info command (`BaseInfoCommand`): parameter specifications plus
the return signature.  Construct through `mkInfoCommand` so that the
`validate_info_command` model validator (forcing `return_signature` to
`None` when `has_return` is false) has run. -/
structure InfoCommand where
  name : String
  microservice : String
  uuid : String
  desc : String := ""
  parameters : List (String × ParameterModel) := []
  has_return : Bool := true
  return_signature : Option (List (String × String)) := none
deriving DecidableEq, Repr

/-- Construction of a `BaseInfoCommand`, applying the
`validate_info_command` model validator. -/
def mkInfoCommand (name microservice uuid : String) (desc : String)
    (parameters : List (String × ParameterModel)) (has_return : Bool)
    (return_signature : Option (List (String × String))) : InfoCommand :=
  { name, microservice, uuid, desc, parameters, has_return
    return_signature := if has_return then return_signature else none }

/-- Errors raised by `to_run_command`, one per `raise` site: a
`save_vars` key outside the declared return signature, a `var_names` key
or a kwargs key that is not a declared parameter, or a value failing the
container's own validation. -/
inductive ToRunErr
| unknownReturnKey (k : String)
| unknownVarNameKey
| unknownKwargKey
| valueInvalid (e : VErr)
deriving DecidableEq, Repr

/-- Builder loop of `to_run_command`: for each declared specification
build a fresh container, mark it indirected when named in `var_names`,
then assign the literal from `kwargs` when present (validation failures
propagate). -/
def buildRunParameters (specs : List (String × ParameterModel))
    (var_names : List (String × String)) (kwargs : KW) :
    Except ToRunErr (List (String × Parameter)) :=
  match specs with
  | [] => .ok []
  | (key, m) :: rest =>
    let p0 := m.mkInstance
    let p1 :=
      match alistLookup var_names key with
      | some vn => { p0 with param := { p0.param with from_var := true, var_name := vn } }
      | none => p0
    match
      (match alistLookup kwargs key with
       | some v =>
         match p1.setValue v with
         | .ok p2 => Except.ok p2
         | .error e => Except.error (ToRunErr.valueInvalid e)
       | none => Except.ok p1) with
    | .error e => .error e
    | .ok p2 =>
      match buildRunParameters rest var_names kwargs with
      | .ok ps => .ok ((key, p2.param) :: ps)
      | .error e => .error e

/-- `BaseInfoCommand.to_run_command(var_names, save_vars, **kwargs)`:
validate `save_vars` keys against a truthy (non-`None`, non-empty)
return signature, require every `var_names` and kwargs key to be a
declared parameter, then build the containers and assemble the run
command with the same uuid, name and microservice. -/
def InfoCommand.to_run_command (ic : InfoCommand)
    (var_names : Option (List (String × String))) (save_vars : Option SV)
    (kwargs : KW) : Except ToRunErr RunCommand := do
  let var_names := var_names.getD []
  let save_vars := save_vars.getD []
  match ic.return_signature with
  | some rs =>
    if rs.length > 0 then
      match save_vars.find? (fun kv => !(alistHasKey rs kv.1)) with
      | some kv => throw (.unknownReturnKey kv.1)
      | none => pure ()
    else
      pure ()
  | none => pure ()
  if var_names.any (fun kv => !(alistHasKey ic.parameters kv.1)) then
    throw .unknownVarNameKey
  if kwargs.any (fun kv => !(alistHasKey ic.parameters kv.1)) then
    throw .unknownKwargKey
  let ps ← buildRunParameters ic.parameters var_names kwargs
  pure { name := ic.name, microservice := ic.microservice, uuid := ic.uuid
         save_vars := save_vars, parameters := ps }

/-- A driver command (`BaseDriverCommand`): the declared specifications
(`parameters`), the bound callable (`fn`, modelled semantically — the
construction-time resolution of `module`/`package` strings and the
`inspect.signature` argument check are import machinery outside the
embedding) and the hidden runtime state `_parameters` (`params`), the
working dictionary of built value containers. -/
structure DriverCommand where
  name : String
  microservice : String
  uuid : String
  desc : String := ""
  parameters : List (String × ParameterModel) := []
  fn : Fn
  has_return : Bool := true
  return_signature : Option (List (String × String)) := none
  params : Params := []

/-- Construction of a driver command: `_set_parameters` builds the
working containers from the declared specifications
(`parameter.to_param()()` for each entry, unvalidated defaults), and
`_validate_return_signature` forces the signature to `None` when
`has_return` is false. -/
def mkDriverCommand (name microservice uuid : String) (desc : String)
    (parameters : List (String × ParameterModel)) (fn : Fn) (has_return : Bool)
    (return_signature : Option (List (String × String))) : DriverCommand :=
  { name, microservice, uuid, desc, parameters, fn, has_return
    return_signature := if has_return then return_signature else none
    params := parameters.map (fun km => (km.1, km.2.mkInstance)) }

/-- Errors raised out of `DriverCommand.__call__`, one per `raise`
site/propagation path: an unresolved callable, a kwargs key that is not
a parameter (`_validate_kwargs`), a container validation error escaping
`_update_parameters`, an exception from the callable itself, and a
missing result key in `_save_results_to_globals`. -/
inductive InvokeErr
| notImplemented
| unknownArgument (k : String)
| validation (e : VErr)
| fnRaised
| missingResultKey (k : String)
deriving DecidableEq, Repr

/-- The kwargs loop of `_update_parameters`: apply each entry in order;
the first validation failure returns the state at the failure point
together with the original error (the restore happens in the caller). -/
def applyKwargsLoop : Params → KW → Except (Params × VErr) Params
| ps, [] => .ok ps
| ps, (k, v) :: rest =>
  match setParamValue ps k v with
  | .ok ps2 => applyKwargsLoop ps2 rest
  | .error e => .error (ps, e)

/-- The variable-resolution loop of `_update_parameters`: for every
parameter (in dictionary order) flagged `from_var` whose `var_name` is a
key of the globals, assign that global's current value; the first
failure returns the state at the failure point with the error. -/
def fromVarLoop (g : Globals) : Params → List String → Except (Params × VErr) Params
| ps, [] => .ok ps
| ps, k :: rest =>
  match alistLookup ps k with
  | none => fromVarLoop g ps rest
  | some p =>
    if p.param.from_var && alistHasKey g p.param.var_name then
      match setParamValue ps k ((alistLookup g p.param.var_name).getD none) with
      | .ok ps2 => fromVarLoop g ps2 rest
      | .error e => .error (ps, e)
    else
      fromVarLoop g ps rest

/-- The revert loop of `_update_parameters`: re-assign every snapshot
value in order through the containers' validation; a failing restore
assignment aborts the loop, leaving the state partially restored, and
its own error propagates instead of the original one. -/
def restoreParams : Params → List (String × Val) → Params × Option VErr
| ps, [] => (ps, none)
| ps, (k, v) :: rest =>
  match setParamValue ps k v with
  | .ok ps2 => restoreParams ps2 rest
  | .error e => (ps, some e)

/-- `_update_parameters(wf_globals, **kwargs)`: snapshot every current
parameter value, apply the kwargs entries, then resolve indirected
parameters from the globals; on the first failure in either loop revert
every parameter to the snapshot (itself able to fail part-way) and
raise.  Returns the final parameter state and the raised error, if
any. -/
def updateParameters (ps0 : Params) (g : Globals) (kwargs : KW) : Params × Option VErr :=
  let prev := paramValues ps0
  match applyKwargsLoop ps0 kwargs with
  | .error pe =>
    (match restoreParams pe.1 prev with
     | (psr, none) => (psr, some pe.2)
     | (psr, some e2) => (psr, some e2))
  | .ok ps1 =>
    match fromVarLoop g ps1 (alistKeys ps1) with
    | .ok ps2 => (ps2, none)
    | .error pe =>
      (match restoreParams pe.1 prev with
       | (psr, none) => (psr, some pe.2)
       | (psr, some e2) => (psr, some e2))

/-- `_save_results_to_globals(result, wf_globals, save_vars)`: for each
`(result_var, global_var)` pair, in order, copy `result[result_var]`
into `wf_globals[global_var]`; a missing result key raises `KeyError`
mid-loop, keeping the writes already made. -/
def saveResultsToGlobals : ResultDict → Globals → SV → Globals × Option String
| _, g, [] => (g, none)
| result, g, (rk, gv) :: rest =>
  match alistLookup result rk with
  | none => (g, some rk)
  | some v => saveResultsToGlobals result (alistSet g gv v) rest

/-- The state and outcome of one `__call__`: the command with its
mutated `_parameters`, the (in-place mutated) globals, and either the
returned value (`none` when `has_return` is false — the callable's
result is discarded) or the raised error. -/
structure InvokeOut where
  ret : Except InvokeErr (Option ResultDict)
  cmd : DriverCommand
  globals : Globals

/-- `BaseDriverCommand.__call__(wf_globals, save_vars, **kwargs)`:
default the two dictionaries, reject unknown kwargs keys before any
mutation, run the atomic parameter update, extract the argument values,
call the bound callable, and, when `has_return` is true, save the
requested result keys to the globals and return the result. -/
def DriverCommand.invoke (c : DriverCommand) (wf_globals : Option Globals)
    (save_vars : Option SV) (kwargs : KW) : InvokeOut :=
  let sv := save_vars.getD []
  let g := wf_globals.getD []
  match kwargs.find? (fun kv => !(alistHasKey c.params kv.1)) with
  | some kv => { ret := .error (.unknownArgument kv.1), cmd := c, globals := g }
  | none =>
    match updateParameters c.params g kwargs with
    | (ps2, some e) => { ret := .error (.validation e), cmd := { c with params := ps2 }, globals := g }
    | (ps2, none) =>
      let c2 := { c with params := ps2 }
      let args := paramValues ps2
      match c.fn args with
      | .error _ => { ret := .error .fnRaised, cmd := c2, globals := g }
      | .ok result =>
        if c.has_return then
          match saveResultsToGlobals result g sv with
          | (g2, some rk) => { ret := .error (.missingResultKey rk), cmd := c2, globals := g2 }
          | (g2, none) => { ret := .ok (some result), cmd := c2, globals := g2 }
        else
          { ret := .ok none, cmd := c2, globals := g }

/-- `BaseDriverCommand.to_info_command`: the pure projection dropping the
callable and the runtime parameter state (the info-command model
validator applies on construction). -/
def DriverCommand.to_info_command (c : DriverCommand) : InfoCommand :=
  mkInfoCommand c.name c.microservice c.uuid c.desc c.parameters c.has_return c.return_signature

/-- One step of `set_param_values_from_run_command`: for a literal run
parameter assign its value into the working container (validated, no
rollback); for an indirected one set `from_var`/`var_name` on both the
working container and the declared specification.  A run parameter
absent from the command raises `KeyError`. -/
def setParamFromRun (c : DriverCommand) (key : String) (p : Parameter) :
    Except InvokeErr DriverCommand :=
  if !(alistHasKey c.params key) then
    .error (.unknownArgument key)
  else
    if p.from_var = false then
      match setParamValue c.params key p.value with
      | .ok ps2 => .ok { c with params := ps2 }
      | .error e => .error (.validation e)
    else
      let ps2 := c.params.map (fun kp =>
        if kp.1 = key then
          (kp.1, { kp.2 with param := { kp.2.param with from_var := p.from_var, var_name := p.var_name } })
        else kp)
      let specs2 := c.parameters.map (fun km =>
        if km.1 = key then (km.1, { km.2 with from_var := p.from_var, var_name := p.var_name })
        else km)
      .ok { c with params := ps2, parameters := specs2 }

/-- The iteration of `set_param_values_from_run_command` over the run
command's parameter entries, aborting on the first raised error. -/
def setParamsFromRunLoop : DriverCommand → List (String × Parameter) → Except InvokeErr DriverCommand
| c, [] => .ok c
| c, (k, p) :: rest =>
  match setParamFromRun c k p with
  | .ok c2 => setParamsFromRunLoop c2 rest
  | .error e => .error e

/-- `BaseDriverCommand.set_param_values_from_run_command(command)`:
iterate the run command's parameter dictionary in order, transplanting
each value or indirection flag pair. -/
def DriverCommand.set_param_values_from_run_command (c : DriverCommand)
    (rc : RunCommand) : Except InvokeErr DriverCommand :=
  setParamsFromRunLoop c rc.parameters

/-! The workflow tiers (`src/core/workflow/base.py`). -/

/-- A driver workflow (`BaseDriverWorkflow`): the ordered command list
and the shared mutable scope `wf_globals`. -/
structure DriverWorkflow where
  name : String
  commands : List DriverCommand
  wf_globals : Globals := []

/-- Errors raised out of `DriverWorkflow.exec`: the two length-mismatch
`ValueError`s, or the exception propagating from a step. -/
inductive ExecErr
| kwargsLengthMismatch
| saveVarsLengthMismatch
| stepFailed (e : InvokeErr)
deriving DecidableEq, Repr

/-- The sequential execution loop of `exec` over
`zip(commands, list_kwargs, list_save_vars)`: run each command with the
threaded globals and append its result to the log.  A failing step
aborts the loop; the local `result_log` is lost (the raised exception
carries no results), while the mutated commands and globals remain
observable. -/
def execSteps : List (DriverCommand × KW × SV) → Globals →
    List DriverCommand × Globals × Except InvokeErr (List (Option ResultDict))
| [], g => ([], g, .ok [])
| (c, kw, sv) :: rest, g =>
  let out := c.invoke (some g) (some sv) kw
  match out.ret with
  | .ok r =>
    let (cs, g2, res) := execSteps rest out.globals
    (out.cmd :: cs, g2, res.map (r :: ·))
  | .error e => (out.cmd :: (rest.map (fun t => t.1)), out.globals, .error e)

/-- `DriverWorkflow.exec(list_kwargs, list_save_vars)`: default a
missing list to one empty dictionary per command and replace `None`
entries by empty dictionaries, check both lengths against the command
count (raising before any execution), then run the steps sequentially,
threading `self.wf_globals` through every step.  Returns the workflow
with its mutated commands and globals, plus the result log or the
propagated exception. -/
def DriverWorkflow.exec (wf : DriverWorkflow)
    (list_kwargs : Option (List (Option KW)))
    (list_save_vars : Option (List (Option SV))) :
    DriverWorkflow × Except ExecErr (List (Option ResultDict)) :=
  let lk : List KW :=
    match list_kwargs with
    | none => wf.commands.map (fun _ => [])
    | some l => l.map (fun o => o.getD [])
  let lsv : List SV :=
    match list_save_vars with
    | none => wf.commands.map (fun _ => [])
    | some l => l.map (fun o => o.getD [])
  if wf.commands.length ≠ lk.length then
    (wf, .error .kwargsLengthMismatch)
  else if wf.commands.length ≠ lsv.length then
    (wf, .error .saveVarsLengthMismatch)
  else
    let (cs, g2, res) := execSteps (wf.commands.zip (lk.zip lsv)) wf.wf_globals
    ({ wf with commands := cs, wf_globals := g2 },
     match res with
     | .ok log => .ok log
     | .error e => .error (.stepFailed e))

/-! The libraries (`src/core/library/base.py`) and the interpreter
(`src/utils/interpreter/base.py`). -/

/-- A driver microservice (`BaseDriverMicroservice`): a named,
uuid-carrying dictionary of driver commands. -/
structure DriverMicroservice where
  name : String
  uuid : String
  desc : String := ""
  commands : List (String × DriverCommand) := []

/-- A driver command library (`BaseDriverCommandLibrary`): the primary
name-keyed microservice dictionary.  The derived uuid index
`_microservices` is rebuilt by the model validator whenever the primary
map changes, so it is modelled as a function of the primary map. -/
structure DriverCommandLibrary where
  name : String
  description : String := ""
  microservices : List (String × DriverMicroservice) := []

/-- The derived uuid index `_microservices`: a dictionary comprehension
over the primary map's values keyed by `str(uuid)` (a duplicate uuid
keeps the later entry, as in a Python comprehension). -/
def DriverCommandLibrary.uuidIndex (lib : DriverCommandLibrary) :
    List (String × DriverMicroservice) :=
  lib.microservices.foldl (fun acc km => alistSet acc km.2.uuid km.2) []

/-- Errors raised by the interpreter, one per `raise`/propagation site:
the `KeyError`s for an unknown microservice (by uuid in
`_interpret_command`, by name in `interpret_workflow`) and an unknown
command name, plus any error escaping
`set_param_values_from_run_command` while binding. -/
inductive InterpErr
| unknownMicroservice
| unknownCommand
| bindFailed (e : InvokeErr)
deriving DecidableEq, Repr

/-- `BaseCommandInterpreter._interpret_command(run_command)`: membership
check of `str(run_command.uuid)` in the library's uuid index, then of
the command name within that microservice, returning the registered
command itself. -/
def interpretCommand (lib : DriverCommandLibrary) (rc : RunCommand) :
    Except InterpErr DriverCommand :=
  if !(alistHasKey lib.uuidIndex rc.uuid) then
    .error .unknownMicroservice
  else
    match alistLookup lib.uuidIndex rc.uuid with
    | none => .error .unknownMicroservice
    | some ms =>
      match alistLookup ms.commands rc.name with
      | none => .error .unknownCommand
      | some c => .ok c

/-- Write a (mutated-through-sharing) driver command back into the
library under its microservice name and command name: `model_copy()` is
a shallow copy, so the copy's `parameters` and `_parameters`
dictionaries are the very objects held by the registered template, and
every mutation made through the copy is visible in the library. -/
def libraryShareMutation (lib : DriverCommandLibrary) (msName cmdName : String)
    (c : DriverCommand) : DriverCommandLibrary :=
  { lib with microservices := lib.microservices.map (fun km =>
      if km.1 = msName then
        (km.1, { km.2 with commands := alistSet km.2.commands cmdName c })
      else km) }

/-- The per-command body of `interpret_workflow`: look the driver
command up by the run command's MICROSERVICE NAME (not its uuid) and
then by command name (each missing key a `KeyError`), take a shallow
`model_copy()`, and bind the run command's values and indirection flags
onto it.  Because the copy shares its parameter dictionaries with the
registered template, the binding's mutations are also applied to the
library. -/
def interpretWorkflowStep (lib : DriverCommandLibrary) (rc : RunCommand) :
    Except InterpErr (DriverCommand × DriverCommandLibrary) :=
  match alistLookup lib.microservices rc.microservice with
  | none => .error .unknownMicroservice
  | some ms =>
    match alistLookup ms.commands rc.name with
    | none => .error .unknownCommand
    | some c =>
      match c.set_param_values_from_run_command rc with
      | .error e => .error (.bindFailed e)
      | .ok c2 => .ok (c2, libraryShareMutation lib rc.microservice rc.name c2)

/-- The command loop of `interpret_workflow`, appending each interpreted
command to the growing driver workflow and threading the (shared,
mutated) library. -/
def interpretWorkflowLoop : DriverCommandLibrary → List RunCommand →
    Except InterpErr (List DriverCommand × DriverCommandLibrary)
| lib, [] => .ok ([], lib)
| lib, rc :: rest =>
  match interpretWorkflowStep lib rc with
  | .error e => .error e
  | .ok (c, lib2) =>
    match interpretWorkflowLoop lib2 rest with
    | .error e => .error e
    | .ok (cs, lib3) => .ok (c :: cs, lib3)

/-- A run workflow (`BaseRunWorkflow`): a named ordered list of run
commands. -/
structure RunWorkflow where
  name : String
  commands : List RunCommand
deriving DecidableEq, Repr

/-- `BaseCommandInterpreter.interpret_workflow(run_workflow)`: interpret
each run command in order into a fresh driver workflow (whose
`wf_globals` starts empty).  Returns the workflow together with the
library as mutated through the shared parameter dictionaries. -/
def interpretWorkflow (lib : DriverCommandLibrary) (rw : RunWorkflow) :
    Except InterpErr (DriverWorkflow × DriverCommandLibrary) :=
  match interpretWorkflowLoop lib rw.commands with
  | .error e => .error e
  | .ok (cs, lib2) => .ok ({ name := rw.name, commands := cs, wf_globals := [] }, lib2)

/-- An error escaping `interpret_and_run_workflow`: from interpretation
or from execution. -/
inductive RunTopErr
| interp (e : InterpErr)
| exec (e : ExecErr)
deriving DecidableEq, Repr

/-- `BaseCommandInterpreter.interpret_and_run_workflow(run_workflow)`:
interpret the workflow, derive per-step kwargs (`to_kwargs`, the
non-indirected values) and `save_vars` from the original run commands,
and execute.  Returns the result log (or error) together with the
library as mutated by interpretation.  (Execution mutates the shared
parameter dictionaries further; that second round of sharing is not
propagated back into the returned library here, and no theorem below
relies on the returned library's state after execution.) -/
def interpretAndRunWorkflow (lib : DriverCommandLibrary) (rw : RunWorkflow) :
    Except RunTopErr (List (Option ResultDict)) × DriverCommandLibrary :=
  match interpretWorkflow lib rw with
  | .error e => (.error (.interp e), lib)
  | .ok (dwf, lib2) =>
    let list_kwargs := rw.commands.map (fun rc => some rc.to_kwargs)
    let list_save_vars := rw.commands.map (fun rc => some rc.save_vars)
    match dwf.exec (some list_kwargs) (some list_save_vars) with
    | (_, .ok log) => (.ok log, lib2)
    | (_, .error e) => (.error (.exec e), lib2)

/-! Lemmas about the runtime parameter state.  The update loops mutate
only the `value` field of the stored containers, so the state with all
values erased is an invariant; a snapshot whose values re-validate to
themselves restores exactly. -/

/-- A container with its current value erased: the part of the runtime
state the update loops never touch. -/
def eraseValue (p : ParamInstance) : ParamInstance :=
  { p with param := { p.param with value := none } }

/-- The parameter dictionary with all values erased. -/
def paramShape (ps : Params) : Params :=
  ps.map (fun kp => (kp.1, eraseValue kp.2))

/-- A parameter state whose every current value re-validates to itself
on assignment (true of every state produced by validated assignment,
and of validated defaults of well-typed scalar models). -/
def selfRevalidating (ps : Params) : Prop :=
  ∀ kp ∈ ps, kp.2.setValue kp.2.param.value = .ok kp.2

instance {ε α : Type} [DecidableEq ε] [DecidableEq α] : DecidableEq (Except ε α) := by
  intro a b
  cases a <;> cases b
  case error.error e1 e2 =>
    exact if h : e1 = e2 then .isTrue (by rw [h]) else .isFalse (by intro hc; cases hc; exact h rfl)
  case error.ok e1 a2 => exact .isFalse (by intro hc; cases hc)
  case ok.error a1 e2 => exact .isFalse (by intro hc; cases hc)
  case ok.ok a1 a2 =>
    exact if h : a1 = a2 then .isTrue (by rw [h]) else .isFalse (by intro hc; cases hc; exact h rfl)

instance (ps : Params) : Decidable (selfRevalidating ps) := by
  unfold selfRevalidating
  infer_instance

theorem setValue_shape (p : ParamInstance) (v : Val) (p2 : ParamInstance)
    (h : p.setValue v = .ok p2) : eraseValue p2 = eraseValue p := by
  unfold ParamInstance.setValue at h
  cases hv : validateValue p.model v with
  | ok v2 => rw [hv] at h; cases h; simp [eraseValue]
  | error e => rw [hv] at h; cases h

theorem setParamValue_shape (ps : Params) (k : String) (v : Val) (ps2 : Params)
    (h : setParamValue ps k v = .ok ps2) : paramShape ps2 = paramShape ps := by
  induction ps generalizing ps2 with
  | nil => cases h; rfl
  | cons kp rest ih =>
    obtain ⟨k1, p1⟩ := kp
    unfold setParamValue at h
    by_cases hk : k1 = k
    · rw [if_pos hk] at h
      cases hs : p1.setValue v with
      | ok p2 =>
        rw [hs] at h
        cases h
        simp only [paramShape, List.map_cons, setValue_shape _ _ _ hs]
      | error e => rw [hs] at h; cases h
    · rw [if_neg hk] at h
      cases hrec : setParamValue rest k v with
      | ok rest2 =>
        rw [hrec] at h
        cases h
        have h2 := ih _ hrec
        simp only [paramShape, List.map_cons] at h2 ⊢
        rw [h2]
      | error e => rw [hrec] at h; cases h

theorem applyKwargsLoop_shape_ok (ps : Params) (kw : KW) (ps2 : Params)
    (h : applyKwargsLoop ps kw = .ok ps2) : paramShape ps2 = paramShape ps := by
  induction kw generalizing ps with
  | nil => cases h; rfl
  | cons kv rest ih =>
    unfold applyKwargsLoop at h
    cases hs : setParamValue ps kv.1 kv.2 with
    | ok psm =>
      rw [hs] at h
      exact (ih psm h).trans (setParamValue_shape _ _ _ _ hs)
    | error e => rw [hs] at h; cases h

theorem applyKwargsLoop_shape_err (ps : Params) (kw : KW) (psf : Params) (e : VErr)
    (h : applyKwargsLoop ps kw = .error (psf, e)) : paramShape psf = paramShape ps := by
  induction kw generalizing ps with
  | nil => cases h
  | cons kv rest ih =>
    unfold applyKwargsLoop at h
    cases hs : setParamValue ps kv.1 kv.2 with
    | ok psm =>
      rw [hs] at h
      exact (ih psm h).trans (setParamValue_shape _ _ _ _ hs)
    | error e2 =>
      rw [hs] at h
      cases h
      rfl

theorem fromVarLoop_shape_ok (g : Globals) (keys : List String) (ps : Params) (ps2 : Params)
    (h : fromVarLoop g ps keys = .ok ps2) : paramShape ps2 = paramShape ps := by
  induction keys generalizing ps with
  | nil => cases h; rfl
  | cons k rest ih =>
    unfold fromVarLoop at h
    cases hl : alistLookup ps k with
    | none => rw [hl] at h; dsimp only at h; exact ih ps h
    | some p =>
      rw [hl] at h
      dsimp only at h
      by_cases hc : (p.param.from_var && alistHasKey g p.param.var_name) = true
      · rw [if_pos hc] at h
        cases hs : setParamValue ps k ((alistLookup g p.param.var_name).getD none) with
        | ok psm =>
          rw [hs] at h
          exact (ih psm h).trans (setParamValue_shape _ _ _ _ hs)
        | error e => rw [hs] at h; cases h
      · rw [if_neg hc] at h
        exact ih ps h

theorem fromVarLoop_shape_err (g : Globals) (keys : List String) (ps : Params)
    (psf : Params) (e : VErr)
    (h : fromVarLoop g ps keys = .error (psf, e)) : paramShape psf = paramShape ps := by
  induction keys generalizing ps with
  | nil => cases h
  | cons k rest ih =>
    unfold fromVarLoop at h
    cases hl : alistLookup ps k with
    | none => rw [hl] at h; dsimp only at h; exact ih ps h
    | some p =>
      rw [hl] at h
      dsimp only at h
      by_cases hc : (p.param.from_var && alistHasKey g p.param.var_name) = true
      · rw [if_pos hc] at h
        cases hs : setParamValue ps k ((alistLookup g p.param.var_name).getD none) with
        | ok psm =>
          rw [hs] at h
          exact (ih psm h).trans (setParamValue_shape _ _ _ _ hs)
        | error e2 =>
          rw [hs] at h
          cases h
          rfl
      · rw [if_neg hc] at h
        exact ih ps h

theorem setParamValue_cons_ne (k : String) (p : ParamInstance) (ps : Params)
    (key : String) (v : Val) (hne : k ≠ key) :
    setParamValue ((k, p) :: ps) key v =
      match setParamValue ps key v with
      | .ok rest2 => .ok ((k, p) :: rest2)
      | .error e => .error e := by
  conv_lhs => unfold setParamValue
  rw [if_neg hne]

theorem setParamValue_cons_hit (k : String) (p : ParamInstance) (ps : Params) (v : Val)
    (p2 : ParamInstance) (hs : p.setValue v = .ok p2) :
    setParamValue ((k, p) :: ps) k v = .ok ((k, p2) :: ps) := by
  unfold setParamValue
  rw [if_pos rfl, hs]

theorem restoreParams_skip (k : String) (p : ParamInstance) (ps : Params)
    (prev : List (String × Val)) (h : ∀ kv ∈ prev, kv.1 ≠ k) :
    restoreParams ((k, p) :: ps) prev =
      ((k, p) :: (restoreParams ps prev).1, (restoreParams ps prev).2) := by
  induction prev generalizing ps with
  | nil => rfl
  | cons kv rest ih =>
    have hk : k ≠ kv.1 := fun hc => (h kv (List.mem_cons_self _ _)) hc.symm
    have hcons := setParamValue_cons_ne k p ps kv.1 kv.2 hk
    cases hs : setParamValue ps kv.1 kv.2 with
    | ok ps2 =>
      simp only [hs] at hcons
      simp only [restoreParams, hcons, hs]
      exact ih ps2 (fun kv2 hm => h kv2 (List.mem_cons_of_mem _ hm))
    | error e =>
      simp only [hs] at hcons
      simp only [restoreParams, hcons, hs]

theorem paramValues_cons (kp : String × ParamInstance) (ps : Params) :
    paramValues (kp :: ps) = (kp.1, kp.2.param.value) :: paramValues ps := rfl

theorem selfRevalidating_validate (p0 : ParamInstance)
    (hself : p0.setValue p0.param.value = .ok p0) :
    validateValue p0.model p0.param.value = .ok p0.param.value := by
  unfold ParamInstance.setValue at hself
  cases hv : validateValue p0.model p0.param.value with
  | ok v2 =>
    rw [hv] at hself
    injection hself with heq
    have hv2 : v2 = p0.param.value := by
      have h2 := congrArg (fun q => q.param.value) heq
      simpa using h2
    rw [hv2]
  | error e => rw [hv] at hself; cases hself

theorem restoreParams_full (ps0 : Params) (ps : Params)
    (hnd : (alistKeys ps0).Nodup)
    (hsr : selfRevalidating ps0)
    (hsh : paramShape ps = paramShape ps0) :
    restoreParams ps (paramValues ps0) = (ps0, none) := by
  induction ps0 generalizing ps with
  | nil =>
    have hps : ps = [] := by
      cases ps with
      | nil => rfl
      | cons kp rest => simp [paramShape] at hsh
    subst hps
    rfl
  | cons kp0 rest0 ih =>
    cases ps with
    | nil => simp [paramShape] at hsh
    | cons kp rest =>
      obtain ⟨k0, pm0, pv0, pd0, pf0, pn0⟩ := kp0
      obtain ⟨k1, pm1, pv1, pd1, pf1, pn1⟩ := kp
      simp only [paramShape, List.map_cons, List.cons.injEq, Prod.mk.injEq, eraseValue,
        ParamInstance.mk.injEq, Parameter.mk.injEq, and_true, true_and] at hsh
      obtain ⟨⟨hkeq, hmeq, hdeq, hfeq, hneq⟩, hrest⟩ := hsh
      rw [hkeq, hmeq, hdeq, hfeq, hneq]
      have hself : ParamInstance.setValue ⟨pm0, ⟨pv0, pd0, pf0, pn0⟩⟩ pv0 =
          .ok ⟨pm0, ⟨pv0, pd0, pf0, pn0⟩⟩ :=
        hsr (k0, ⟨pm0, ⟨pv0, pd0, pf0, pn0⟩⟩) (List.mem_cons_self _ _)
      have hval : validateValue pm0 pv0 = .ok pv0 := selfRevalidating_validate _ hself
      have hstep : ParamInstance.setValue ⟨pm0, ⟨pv1, pd0, pf0, pn0⟩⟩ pv0 =
          .ok ⟨pm0, ⟨pv0, pd0, pf0, pn0⟩⟩ := by
        unfold ParamInstance.setValue
        simp [hval]
      rw [paramValues_cons]
      unfold restoreParams
      rw [setParamValue_cons_hit _ _ _ _ _ hstep]
      dsimp only
      have hknotin : ∀ kv ∈ paramValues rest0, kv.1 ≠ k0 := by
        intro kv hm
        have hkmem : kv.1 ∈ alistKeys rest0 := by
          simp only [paramValues] at hm
          obtain ⟨x, hx, hxe⟩ := List.mem_map.mp hm
          subst hxe
          exact List.mem_map.mpr ⟨x, hx, rfl⟩
        intro hkk
        subst hkk
        exact (List.nodup_cons.mp hnd).1 hkmem
      rw [restoreParams_skip _ _ _ _ hknotin]
      rw [ih rest (List.nodup_cons.mp hnd).2
        (fun kp2 hm => hsr kp2 (List.mem_cons_of_mem _ hm)) hrest]

theorem updateParameters_kwargs_fail (ps0 : Params) (g : Globals) (kwargs : KW)
    (psf : Params) (e : VErr)
    (hnd : (alistKeys ps0).Nodup) (hsr : selfRevalidating ps0)
    (hfail : applyKwargsLoop ps0 kwargs = .error (psf, e)) :
    updateParameters ps0 g kwargs = (ps0, some e) := by
  unfold updateParameters
  rw [hfail]
  dsimp only
  rw [restoreParams_full ps0 psf hnd hsr (applyKwargsLoop_shape_err _ _ _ _ hfail)]

theorem updateParameters_fv_fail (ps0 : Params) (g : Globals) (kwargs : KW)
    (ps1 psf : Params) (e : VErr)
    (hnd : (alistKeys ps0).Nodup) (hsr : selfRevalidating ps0)
    (hok : applyKwargsLoop ps0 kwargs = .ok ps1)
    (hfail : fromVarLoop g ps1 (alistKeys ps1) = .error (psf, e)) :
    updateParameters ps0 g kwargs = (ps0, some e) := by
  unfold updateParameters
  rw [hok]
  dsimp only
  rw [hfail]
  dsimp only
  have hshape : paramShape psf = paramShape ps0 :=
    (fromVarLoop_shape_err _ _ _ _ _ hfail).trans (applyKwargsLoop_shape_ok _ _ _ hok)
  rw [restoreParams_full ps0 psf hnd hsr hshape]

theorem invoke_restores_on_update_error (c : DriverCommand) (g : Globals) (sv : SV)
    (kwargs : KW) (e : VErr)
    (hkeys : ∀ kv ∈ kwargs, alistHasKey c.params kv.1 = true)
    (hupd : updateParameters c.params g kwargs = (c.params, some e)) :
    (c.invoke (some g) (some sv) kwargs).ret = .error (.validation e) ∧
    (c.invoke (some g) (some sv) kwargs).cmd.params = c.params ∧
    (c.invoke (some g) (some sv) kwargs).globals = g := by
  have hfind : kwargs.find? (fun kv => !(alistHasKey c.params kv.1)) = none := by
    rw [List.find?_eq_none]
    intro kv hm
    simp [hkeys kv hm]
  unfold DriverCommand.invoke
  rw [hfind]
  dsimp only
  simp only [Option.getD_some]
  rw [hupd]
  exact ⟨rfl, rfl, rfl⟩

/-! Concrete fixtures used by witnesses and counterexamples. -/

/-- A scalar integer runtime value. -/
def iv (n : Int) : Val := some (.s (.vInt n))

/-- An integer parameter specification with both limits and a scalar
default (the `a: int[0,10]` shape from the spec's atomicity example). -/
def intRange (nm : String) (lo hi dflt : Int) : ParameterModel :=
  { name := nm, data_type := .dint,
    upper_limit := some (.vInt hi), lower_limit := some (.vInt lo),
    default := some (.s (.vInt dflt)) }

/-- The same specification flagged indirected from a workflow variable. -/
def intRangeVar (nm : String) (lo hi dflt : Int) (vn : String) : ParameterModel :=
  { intRange nm lo hi dflt with from_var := true, var_name := vn }

/-- A list-of-int parameter specification with no default (its container
starts with `value = None`). -/
def intListModel (nm : String) : ParameterModel :=
  { name := nm, data_type := .dint, is_list := true }

/-- A callable returning its own argument dictionary, used to observe
the resolved arguments a command passes to its function. -/
def echoFn : Fn := fun args => .ok args

/-- A callable returning an empty result dictionary. -/
def noopFn : Fn := fun _ => .ok []

def c1cmd : DriverCommand :=
  mkDriverCommand "set_ab" "ms" "11111111-1111-1111-1111-111111111111" ""
    [("a", intRange "a" 0 10 5), ("b", intRange "b" 0 10 5)] noopFn true none

def c1kwargs : KW := [("a", iv 3), ("b", iv 999)]

/-- The parameter state at the point the kwargs loop of `c1cmd` fails
(`a` already set to 3). -/
def c1psf : Params :=
  match applyKwargsLoop c1cmd.params c1kwargs with
  | .error pe => pe.1
  | .ok ps => ps

def cx1cmd : DriverCommand :=
  mkDriverCommand "set_abc" "ms" "11111111-1111-1111-1111-111111111111" ""
    [("c", intListModel "c"), ("a", intRange "a" 0 10 5), ("b", intRange "b" 0 10 5)]
    noopFn true none

/-- C1 (counterexample): the claim fails as universally stated.  For the
driver command `cx1cmd` whose list parameter `c` currently holds `None`
(a list parameter built from a specification with no default), invoking
with `kwargs = {a:3, b:999}` applies `a := 3`, fails on `b := 999`
(`OutOfRange`), and then the revert loop itself raises while re-
assigning `None` to `c` (the `before` validator `list(None)` fails), so
(i) the error surfaced is the revert's `TypeMismatch`-style cast error,
not the kwargs entry's `OutOfRange`, and (ii) parameter `a` is left at
the partially-applied value 3 instead of its pre-call value 5. -/
theorem C1_counterexample :
    alistLookup (paramValues cx1cmd.params) "a" = some (iv 5) ∧
    (cx1cmd.invoke (some []) (some []) c1kwargs).ret = .error (.validation .typeCast) ∧
    alistLookup (paramValues ((cx1cmd.invoke (some []) (some []) c1kwargs).cmd.params)) "a" =
      some (iv 3) := by
  decide

/-- C1 (amended): for every driver command whose every current parameter
value re-validates to itself on assignment (in particular no list
parameter currently holds `None`), and every invoke call whose kwargs
keys are all declared and whose kwargs application fails with validation
error `e`, `invoke` raises exactly `e` and afterwards every parameter
(value, flags and specification alike) equals its pre-call state —
partially-applied kwargs are not observable. -/
theorem C1_amended (c : DriverCommand) (g : Globals) (sv : SV) (kwargs : KW)
    (psf : Params) (e : VErr)
    (hnd : (alistKeys c.params).Nodup)
    (hsr : selfRevalidating c.params)
    (hkeys : ∀ kv ∈ kwargs, alistHasKey c.params kv.1 = true)
    (hfail : applyKwargsLoop c.params kwargs = .error (psf, e)) :
    (c.invoke (some g) (some sv) kwargs).ret = .error (.validation e) ∧
    (c.invoke (some g) (some sv) kwargs).cmd.params = c.params ∧
    (c.invoke (some g) (some sv) kwargs).globals = g :=
  invoke_restores_on_update_error c g sv kwargs e hkeys
    (updateParameters_kwargs_fail c.params g kwargs psf e hnd hsr hfail)

/-- Witness for C1 (amended) at the spec's own example: parameters
`{a:int[0,10], b:int[0,10]}` currently `{a:5, b:5}`, call
`invoke(a=3, b=999)`: the call raises the `OutOfRange` error of `b` and
both parameters keep their pre-call values. -/
theorem C1_witness :
    (c1cmd.invoke (some []) (some []) c1kwargs).ret = .error (.validation .upperLimit) ∧
    (c1cmd.invoke (some []) (some []) c1kwargs).cmd.params = c1cmd.params ∧
    (c1cmd.invoke (some []) (some []) c1kwargs).globals = [] :=
  C1_amended c1cmd [] [] c1kwargs c1psf .upperLimit (by decide) (by decide)
    (by decide) (by decide)

def c7cmd : DriverCommand :=
  mkDriverCommand "set_ab_var" "ms" "11111111-1111-1111-1111-111111111111" ""
    [("a", intRange "a" 0 10 5), ("b", intRangeVar "b" 0 10 5 "g")] noopFn true none

def c7globals : Globals := [("g", iv 999)]

def c7kwargs : KW := [("a", iv 3)]

/-- Parameter state of `c7cmd` after its kwargs loop (`a := 3`). -/
def c7ps1 : Params :=
  match applyKwargsLoop c7cmd.params c7kwargs with
  | .ok ps => ps
  | .error pe => pe.1

/-- Parameter state of `c7cmd` at the point variable resolution fails. -/
def c7psf : Params :=
  match fromVarLoop c7globals c7ps1 (alistKeys c7ps1) with
  | .error pe => pe.1
  | .ok ps => ps

/-- C7 (counterexample): the claim states that after a variable-
resolution failure the parameters are restored to the pre-step-4
snapshot, i.e. with the kwargs updates still applied (`a = 3`).  On the
code, `_update_parameters` takes its only snapshot (`prev_args`) before
the kwargs loop, so with parameters `{a:int[0,10] = 5, b:int[0,10] = 5,
b indirected to "g"}`, `globals = {g: 999}` and `invoke(a=3)`, the
failing resolution of `b` reverts `a` to its pre-call value 5, not to
the kwargs-applied 3. -/
theorem C7_counterexample :
    (c7cmd.invoke (some c7globals) (some []) c7kwargs).ret =
      .error (.validation .upperLimit) ∧
    alistLookup (paramValues ((c7cmd.invoke (some c7globals) (some []) c7kwargs).cmd.params)) "a" =
      some (iv 5) := by
  decide

/-- C7 (amended): when the variable-resolution step fails on some
parameter, all parameters — including any changes successfully applied
from kwargs in the preceding step — are restored to the snapshot taken
at the start of `_update_parameters`, i.e. the PRE-CALL values with the
kwargs updates rolled back as well, and the original resolution error is
re-raised (provided every pre-call value re-validates on assignment). -/
theorem C7_amended (c : DriverCommand) (g : Globals) (sv : SV) (kwargs : KW)
    (ps1 psf : Params) (e : VErr)
    (hnd : (alistKeys c.params).Nodup)
    (hsr : selfRevalidating c.params)
    (hkeys : ∀ kv ∈ kwargs, alistHasKey c.params kv.1 = true)
    (hok : applyKwargsLoop c.params kwargs = .ok ps1)
    (hfail : fromVarLoop g ps1 (alistKeys ps1) = .error (psf, e)) :
    (c.invoke (some g) (some sv) kwargs).ret = .error (.validation e) ∧
    (c.invoke (some g) (some sv) kwargs).cmd.params = c.params ∧
    (c.invoke (some g) (some sv) kwargs).globals = g :=
  invoke_restores_on_update_error c g sv kwargs e hkeys
    (updateParameters_fv_fail c.params g kwargs ps1 psf e hnd hsr hok hfail)

/-- Witness for C7 (amended): at the concrete input of the
counterexample, the call raises the resolution's `OutOfRange` and every
parameter equals its pre-call state. -/
theorem C7_witness :
    (c7cmd.invoke (some c7globals) (some []) c7kwargs).ret =
      .error (.validation .upperLimit) ∧
    (c7cmd.invoke (some c7globals) (some []) c7kwargs).cmd.params = c7cmd.params ∧
    (c7cmd.invoke (some c7globals) (some []) c7kwargs).globals = c7globals :=
  C7_amended c7cmd c7globals [] c7kwargs c7ps1 c7psf .upperLimit (by decide)
    (by decide) (by decide) (by decide) (by decide)

/-! Lemmas about specification validation (claims C8, C9). -/

theorem castAllowedValues_upper (m : ParameterModel) :
    (ParameterModel.castAllowedValues m).upper_limit = m.upper_limit := by
  unfold ParameterModel.castAllowedValues
  split <;> rfl

theorem castAllowedValues_lower (m : ParameterModel) :
    (ParameterModel.castAllowedValues m).lower_limit = m.lower_limit := by
  unfold ParameterModel.castAllowedValues
  split <;> rfl

theorem castAllowedValues_dt (m : ParameterModel) :
    (ParameterModel.castAllowedValues m).data_type = m.data_type := by
  unfold ParameterModel.castAllowedValues
  split <;> rfl

theorem castDefault_upper (m : ParameterModel) :
    (ParameterModel.castDefault m).upper_limit = m.upper_limit := by
  unfold ParameterModel.castDefault
  split <;> (repeat' split) <;> rfl

theorem castDefault_lower (m : ParameterModel) :
    (ParameterModel.castDefault m).lower_limit = m.lower_limit := by
  unfold ParameterModel.castDefault
  split <;> (repeat' split) <;> rfl

theorem castDefault_dt (m : ParameterModel) :
    (ParameterModel.castDefault m).data_type = m.data_type := by
  unfold ParameterModel.castDefault
  split <;> (repeat' split) <;> rfl

theorem except_throw_bind {ε β : Type} (e : ε) (f : Unit → Except ε β) :
    ((throw e : Except ε Unit) >>= f) = Except.error e := rfl

theorem except_pure_bind {ε β : Type} (f : Unit → Except ε β) :
    ((pure () : Except ε Unit) >>= f) = f () := rfl

theorem except_error_bind {ε α β : Type} (e : ε) (f : α → Except ε β) :
    ((Except.error e : Except ε α) >>= f) = Except.error e := rfl

theorem except_ok_bind {ε α β : Type} (a : α) (f : α → Except ε β) :
    ((Except.ok a : Except ε α) >>= f) = f a := rfl

theorem validateLimits_range_error (m : ParameterModel) (u l : PVal)
    (hu : m.upper_limit = some u) (hl : m.lower_limit = some l)
    (hut : isinstanceOf m.data_type u = true)
    (hlt : isinstanceOf m.data_type l = true)
    (hrange : pyLT u l = true) :
    m.validateLimits = .error .limitRange := by
  unfold ParameterModel.validateLimits
  rw [hu, hl]
  simp only [hut, hlt, hrange, if_true, except_pure_bind, except_ok_bind]
  rfl

theorem validateLimits_ok_no_range (m : ParameterModel) (u l : PVal)
    (h : m.validateLimits = .ok ())
    (hu : m.upper_limit = some u) (hl : m.lower_limit = some l) :
    pyLT u l = false := by
  unfold ParameterModel.validateLimits at h
  rw [hu, hl] at h
  by_cases hut : isinstanceOf m.data_type u = true
  · by_cases hlt : isinstanceOf m.data_type l = true
    · by_cases hr : pyLT u l = true
      · simp only [hut, hlt, hr, if_true, except_pure_bind, except_ok_bind, except_throw_bind, except_error_bind] at h
        cases h
      · simpa using hr
    · simp only [hut, hlt, if_true, if_false, except_pure_bind, except_ok_bind, except_throw_bind, except_error_bind] at h
      cases h
  · simp only [hut, if_false, except_pure_bind, except_ok_bind, except_throw_bind, except_error_bind] at h
    cases h

/-- C9: a specification whose limits are both set and, after the
best-effort cast to the data type, lie in the data type with
`upper_limit < lower_limit`, fails construction with the range
`ValueError`; and conversely no specification that survives
construction has `upper_limit < lower_limit`. -/
theorem C9_limits (m : ParameterModel) (u l : PVal)
    (hu : (ParameterModel.castLimits m).upper_limit = some u)
    (hl : (ParameterModel.castLimits m).lower_limit = some l)
    (hut : isinstanceOf m.data_type u = true)
    (hlt : isinstanceOf m.data_type l = true)
    (hrange : pyLT u l = true) :
    m.validateSpec = .error .limitRange ∧
    (∀ (m2 m3 : ParameterModel), m2.validateSpec = .ok m3 →
      ∀ u2 l2, m3.upper_limit = some u2 → m3.lower_limit = some l2 →
        pyLT u2 l2 = false) := by
  constructor
  · unfold ParameterModel.validateSpec
    dsimp only
    have hu2 : (ParameterModel.castDefault (ParameterModel.castAllowedValues
        (ParameterModel.castLimits m))).upper_limit = some u := by
      rw [castDefault_upper, castAllowedValues_upper, hu]
    have hl2 : (ParameterModel.castDefault (ParameterModel.castAllowedValues
        (ParameterModel.castLimits m))).lower_limit = some l := by
      rw [castDefault_lower, castAllowedValues_lower, hl]
    have hdt : (ParameterModel.castDefault (ParameterModel.castAllowedValues
        (ParameterModel.castLimits m))).data_type = m.data_type := by
      rw [castDefault_dt, castAllowedValues_dt]
      unfold ParameterModel.castLimits
      rfl
    have herr := validateLimits_range_error _ u l hu2 hl2 (by rw [hdt]; exact hut)
      (by rw [hdt]; exact hlt) hrange
    rw [herr, except_error_bind]
  · intro m2 m3 hok u2 l2 hu2 hl2
    unfold ParameterModel.validateSpec at hok
    dsimp only at hok
    cases h1 : (ParameterModel.castDefault (ParameterModel.castAllowedValues
        (ParameterModel.castLimits m2))).validateLimits with
    | error e => rw [h1, except_error_bind] at hok; cases hok
    | ok uu =>
      cases uu
      rw [h1, except_ok_bind] at hok
      cases h2 : (ParameterModel.castDefault (ParameterModel.castAllowedValues
          (ParameterModel.castLimits m2))).validateAllowedValues with
      | error e => rw [h2, except_error_bind] at hok; cases hok
      | ok uu2 =>
        cases uu2
        rw [h2, except_ok_bind] at hok
        cases h3 : (ParameterModel.castDefault (ParameterModel.castAllowedValues
            (ParameterModel.castLimits m2))).validateDefault with
        | error e => rw [h3, except_error_bind] at hok; cases hok
        | ok uu3 =>
          cases uu3
          rw [h3, except_ok_bind] at hok
          have hm3 : m3 = ParameterModel.castDefault (ParameterModel.castAllowedValues
              (ParameterModel.castLimits m2)) := by
            cases hok
            rfl
          rw [hm3] at hu2 hl2
          exact validateLimits_ok_no_range _ u2 l2 h1 hu2 hl2

def c9model : ParameterModel :=
  { name := "p", data_type := .dint,
    upper_limit := some (.vInt 1), lower_limit := some (.vInt 5) }

/-- Witness for C9 at a concrete specification: `int` limits
`upper = 1 < lower = 5` make construction fail with the range error. -/
theorem C9_witness : c9model.validateSpec = .error .limitRange :=
  (C9_limits c9model (.vInt 1) (.vInt 5) (by decide) (by decide) (by decide)
    (by decide) (by decide)).1

/-- C8: assignments to a built value container enforce the specification
and are all-or-nothing.  (i) A scalar assignment whose coerced value
passes both limits but lies outside a non-empty allowed-values list
raises `NotAllowed`; (ii) a scalar assignment whose coerced value passes
the limits and belongs to the allowed values succeeds, storing the
coerced value; (iii) a list assignment with any element above the upper
limit raises `OutOfRange` (upper), and (iv) one passing the upper limit
with any element below the lower limit raises `OutOfRange` (lower);
(v) in every failing case the container's value is unchanged
afterwards. -/
theorem except_pure_eq_ok {ε α : Type} (a : α) :
    (pure a : Except ε α) = Except.ok a := rfl

theorem except_throw_eq_error {ε α : Type} (e : ε) :
    (throw e : Except ε α) = Except.error e := rfl

theorem C8_container_validation :
    (∀ (m : ParameterModel) (v v1 : PVal),
       m.is_list = false →
       m.allowed_values ≠ [] →
       pydanticCoerce m.data_type v = some v1 →
       (∀ u, m.upper_limit = some u → pyLE v1 u = true) →
       (∀ l, m.lower_limit = some l → pyLE l v1 = true) →
       m.allowed_values.any (pyEq v1) = false →
       validateValue m (some (.s v)) = .error .notAllowed) ∧
    (∀ (m : ParameterModel) (v v1 : PVal),
       m.is_list = false →
       pydanticCoerce m.data_type v = some v1 →
       (∀ u, m.upper_limit = some u → pyLE v1 u = true) →
       (∀ l, m.lower_limit = some l → pyLE l v1 = true) →
       (m.allowed_values ≠ [] → m.allowed_values.any (pyEq v1) = true) →
       validateValue m (some (.s v)) = .ok (some (.s v1))) ∧
    (∀ (m : ParameterModel) (vs vs1 : List PVal) (u : PVal),
       m.is_list = true →
       vs.mapM (pyCast m.data_type) = some vs1 →
       m.upper_limit = some u →
       vs1.all (fun e => pyLE e u) = false →
       validateValue m (some (.l vs)) = .error .upperLimit) ∧
    (∀ (m : ParameterModel) (vs vs1 : List PVal) (l : PVal),
       m.is_list = true →
       vs.mapM (pyCast m.data_type) = some vs1 →
       (∀ u, m.upper_limit = some u → vs1.all (fun e => pyLE e u) = true) →
       m.lower_limit = some l →
       vs1.all (fun e => pyLE l e) = false →
       validateValue m (some (.l vs)) = .error .lowerLimit) ∧
    (∀ (p : ParamInstance) (v : Val) (e : VErr),
       p.setValue v = .error e → p.assignOrKeep v = p) := by
  refine ⟨?_, ?_, ?_, ?_, ?_⟩
  · intro m v v1 hlist hne hco hup hlo hall
    have hlen : 0 < m.allowed_values.length := by
      cases hav : m.allowed_values with
      | nil => exact absurd hav hne
      | cons a rest => simp [hav]
    cases hu : m.upper_limit with
    | some u =>
      have h1 : pyLE v1 u = true := hup u hu
      cases hl : m.lower_limit with
      | some l =>
        have h2 : pyLE l v1 = true := hlo l hl
        simp [validateValue, hlist, hco, hu, hl, h1, h2, hlen, hall,
          except_pure_bind, except_throw_bind, except_ok_bind, except_error_bind, except_pure_eq_ok, except_throw_eq_error]
      | none =>
        simp [validateValue, hlist, hco, hu, hl, h1, hlen, hall,
          except_pure_bind, except_throw_bind, except_ok_bind, except_error_bind, except_pure_eq_ok, except_throw_eq_error]
    | none =>
      cases hl : m.lower_limit with
      | some l =>
        have h2 : pyLE l v1 = true := hlo l hl
        simp [validateValue, hlist, hco, hu, hl, h2, hlen, hall,
          except_pure_bind, except_throw_bind, except_ok_bind, except_error_bind, except_pure_eq_ok, except_throw_eq_error]
      | none =>
        simp [validateValue, hlist, hco, hu, hl, hlen, hall,
          except_pure_bind, except_throw_bind, except_ok_bind, except_error_bind, except_pure_eq_ok, except_throw_eq_error]
  · intro m v v1 hlist hco hup hlo hall
    have hav : (decide (m.allowed_values.length > 0) && !m.allowed_values.any (pyEq v1)) = false := by
      cases hx : m.allowed_values with
      | nil => simp [hx]
      | cons a rest =>
        have : m.allowed_values.any (pyEq v1) = true := hall (by simp [hx])
        simp [hx, hx ▸ this]
    cases hu : m.upper_limit with
    | some u =>
      have h1 : pyLE v1 u = true := hup u hu
      cases hl : m.lower_limit with
      | some l =>
        have h2 : pyLE l v1 = true := hlo l hl
        simp only [validateValue, hlist, hco, hu, hl, h1, h2, hav, Bool.not_true,
          Bool.false_eq_true, if_false, except_pure_bind, except_throw_bind, except_ok_bind, except_error_bind, except_pure_eq_ok, except_throw_eq_error, if_true]
      | none =>
        simp only [validateValue, hlist, hco, hu, hl, h1, hav, Bool.not_true,
          Bool.false_eq_true, if_false, except_pure_bind, except_throw_bind, except_ok_bind, except_error_bind, except_pure_eq_ok, except_throw_eq_error, if_true]
    | none =>
      cases hl : m.lower_limit with
      | some l =>
        have h2 : pyLE l v1 = true := hlo l hl
        simp only [validateValue, hlist, hco, hu, hl, h2, hav, Bool.not_true,
          Bool.false_eq_true, if_false, except_pure_bind, except_throw_bind, except_ok_bind, except_error_bind, except_pure_eq_ok, except_throw_eq_error, if_true]
      | none =>
        simp only [validateValue, hlist, hco, hu, hl, hav, Bool.not_true,
          Bool.false_eq_true, if_false, except_pure_bind, except_throw_bind, except_ok_bind, except_error_bind, except_pure_eq_ok, except_throw_eq_error, if_true]
  · intro m vs vs1 u hlist hcast hu hviol
    simp only [validateValue, validateListChecks, hlist, hcast, hu, hviol,
      eq_self_iff_true, if_true, Bool.not_false, Bool.not_true,
      except_pure_bind, except_throw_bind, except_ok_bind, except_error_bind, except_pure_eq_ok,
      except_throw_eq_error, Bool.false_eq_true, if_false]
  · intro m vs vs1 l hlist hcast hup hl hviol
    cases hu : m.upper_limit with
    | some u =>
      have h1 : vs1.all (fun e => pyLE e u) = true := hup u hu
      simp only [validateValue, validateListChecks, hlist, hcast, hu, hl, h1, hviol,
        eq_self_iff_true, if_true, if_false, Bool.not_false, Bool.not_true,
        Bool.false_eq_true, except_pure_bind, except_throw_bind, except_ok_bind, except_error_bind,
        except_pure_eq_ok, except_throw_eq_error]
    | none =>
      simp only [validateValue, validateListChecks, hlist, hcast, hu, hl, hviol,
        eq_self_iff_true, if_true, if_false, Bool.not_false, Bool.not_true,
        Bool.false_eq_true, except_pure_bind, except_throw_bind, except_ok_bind, except_error_bind,
        except_pure_eq_ok, except_throw_eq_error]
  · intro p v e h
    unfold ParamInstance.assignOrKeep
    rw [h]

def c8floatModel : ParameterModel :=
  { name := "f", data_type := .dfloat, allowed_values := [.vFloat 1, .vFloat 2] }

def c8listModel : ParameterModel :=
  { name := "xs", data_type := .dint, is_list := true,
    upper_limit := some (.vInt 10), lower_limit := some (.vInt 0) }

def c8inst : ParamInstance := c8floatModel.mkInstance

/-- Witness for C8 at the spec's example: `dataType=float`,
`allowedValues=[1.0, 2.0]` rejects `3.0` with `NotAllowed` and accepts
`1.0`; an `int[0,10]` list container rejects `[1, 999]` with the upper
`OutOfRange` and `[5, -3]` with the lower one; and a failed assignment
leaves the container unchanged. -/
theorem C8_witness :
    validateValue c8floatModel (some (.s (.vFloat 3))) = .error .notAllowed ∧
    validateValue c8floatModel (some (.s (.vFloat 1))) = .ok (some (.s (.vFloat 1))) ∧
    validateValue c8listModel (some (.l [.vInt 1, .vInt 999])) = .error .upperLimit ∧
    validateValue c8listModel (some (.l [.vInt 5, .vInt (-3)])) = .error .lowerLimit ∧
    c8inst.assignOrKeep (some (.s (.vFloat 3))) = c8inst :=
  ⟨C8_container_validation.1 c8floatModel (.vFloat 3) (.vFloat 3) rfl (by decide) (by decide)
      (fun u hu => by simp [c8floatModel] at hu) (fun l hl => by simp [c8floatModel] at hl)
      (by decide),
   C8_container_validation.2.1 c8floatModel (.vFloat 1) (.vFloat 1) rfl (by decide)
      (fun u hu => by simp [c8floatModel] at hu) (fun l hl => by simp [c8floatModel] at hl)
      (fun _ => by decide),
   C8_container_validation.2.2.1 c8listModel [.vInt 1, .vInt 999] [.vInt 1, .vInt 999]
      (.vInt 10) rfl (by decide) (by decide) (by decide),
   C8_container_validation.2.2.2.1 c8listModel [.vInt 5, .vInt (-3)] [.vInt 5, .vInt (-3)]
      (.vInt 0) rfl (by decide)
      (fun u hu => by
        rw [show c8listModel.upper_limit = some (.vInt 10) from rfl] at hu
        injection hu with h2
        subst h2
        decide)
      (by decide) (by decide),
   C8_container_validation.2.2.2.2 c8inst (some (.s (.vFloat 3))) .notAllowed (by decide)⟩

/-! Lemmas for the silent skip of unresolvable indirected parameters
(claim C10). -/

theorem setParamValue_lookup_ne (ps : Params) (k2 : String) (v : Val) (ps2 : Params)
    (k : String) (h : setParamValue ps k2 v = .ok ps2) (hne : k ≠ k2) :
    alistLookup ps2 k = alistLookup ps k := by
  induction ps generalizing ps2 with
  | nil => cases h; rfl
  | cons kp rest ih =>
    obtain ⟨k1, p1⟩ := kp
    unfold setParamValue at h
    by_cases hk : k1 = k2
    · rw [if_pos hk] at h
      cases hs : p1.setValue v with
      | ok p2 =>
        rw [hs] at h
        cases h
        unfold alistLookup
        rw [if_neg (by rw [hk]; exact fun hc => hne hc.symm),
          if_neg (by rw [hk]; exact fun hc => hne hc.symm)]
      | error e => rw [hs] at h; cases h
    · rw [if_neg hk] at h
      cases hrec : setParamValue rest k2 v with
      | ok rest2 =>
        rw [hrec] at h
        cases h
        unfold alistLookup
        by_cases hk1 : k1 = k
        · rw [if_pos hk1, if_pos hk1]
        · rw [if_neg hk1, if_neg hk1]
          exact ih _ hrec
      | error e => rw [hrec] at h; cases h

theorem applyKwargsLoop_preserves (ps : Params) (kw : KW) (ps2 : Params)
    (k : String) (p : ParamInstance)
    (h : applyKwargsLoop ps kw = .ok ps2)
    (hp : alistLookup ps k = some p)
    (hnk : ∀ kv ∈ kw, kv.1 ≠ k) :
    alistLookup ps2 k = some p := by
  induction kw generalizing ps with
  | nil => cases h; exact hp
  | cons kv rest ih =>
    unfold applyKwargsLoop at h
    cases hs : setParamValue ps kv.1 kv.2 with
    | ok psm =>
      rw [hs] at h
      have hne : k ≠ kv.1 := fun hc => (hnk kv (List.mem_cons_self _ _)) hc.symm
      have hp2 : alistLookup psm k = some p :=
        (setParamValue_lookup_ne ps kv.1 kv.2 psm k hs hne).trans hp
      exact ih psm h hp2 (fun kv2 hm => hnk kv2 (List.mem_cons_of_mem _ hm))
    | error e => rw [hs] at h; cases h

theorem fromVarLoop_preserves (g : Globals) (keys : List String) (ps ps2 : Params)
    (k : String) (p : ParamInstance)
    (h : fromVarLoop g ps keys = .ok ps2)
    (hp : alistLookup ps k = some p)
    (hskip : (p.param.from_var && alistHasKey g p.param.var_name) = false) :
    alistLookup ps2 k = some p := by
  induction keys generalizing ps with
  | nil => cases h; exact hp
  | cons k2 rest ih =>
    unfold fromVarLoop at h
    by_cases hk : k2 = k
    · subst hk
      rw [hp] at h
      dsimp only at h
      rw [if_neg (by rw [hskip]; exact Bool.false_ne_true)] at h
      exact ih ps h hp
    · cases hl : alistLookup ps k2 with
      | none => rw [hl] at h; dsimp only at h; exact ih ps h hp
      | some q =>
        rw [hl] at h
        dsimp only at h
        by_cases hc : (q.param.from_var && alistHasKey g q.param.var_name) = true
        · rw [if_pos hc] at h
          cases hs : setParamValue ps k2 ((alistLookup g q.param.var_name).getD none) with
          | ok psm =>
            rw [hs] at h
            have hp2 : alistLookup psm k = some p :=
              (setParamValue_lookup_ne ps k2 _ psm k hs (fun hc2 => hk hc2.symm)).trans hp
            exact ih psm h hp2
          | error e => rw [hs] at h; cases h
        · rw [if_neg hc] at h
          exact ih ps h hp

theorem alistLookup_paramValues (ps : Params) (k : String) :
    alistLookup (paramValues ps) k = (alistLookup ps k).map (fun p => p.param.value) := by
  induction ps with
  | nil => rfl
  | cons kp rest ih =>
    obtain ⟨k1, p1⟩ := kp
    rw [paramValues_cons]
    unfold alistLookup
    by_cases hk : k1 = k
    · rw [if_pos hk, if_pos hk]
      rfl
    · rw [if_neg hk, if_neg hk]
      exact ih

/-- C10: during variable resolution, a parameter flagged `from_var`
whose `variableName` is not a key of the supplied globals is silently
skipped: the invoke succeeds (no error of any kind is raised for the
missing variable), the parameter keeps its current value, and the
callable receives exactly that retained value for the parameter. -/
theorem C10_missing_variable_skipped (c : DriverCommand) (g : Globals) (sv : SV)
    (kwargs : KW) (k : String) (p : ParamInstance) (ps1 ps2 : Params) (res : ResultDict)
    (hp : alistLookup c.params k = some p)
    (hfv : p.param.from_var = true)
    (hmiss : alistHasKey g p.param.var_name = false)
    (hnk : ∀ kv ∈ kwargs, kv.1 ≠ k)
    (hkeys : ∀ kv ∈ kwargs, alistHasKey c.params kv.1 = true)
    (hok1 : applyKwargsLoop c.params kwargs = .ok ps1)
    (hok2 : fromVarLoop g ps1 (alistKeys ps1) = .ok ps2)
    (hfn : c.fn (paramValues ps2) = .ok res)
    (hhr : c.has_return = false) :
    (c.invoke (some g) (some sv) kwargs).ret = .ok none ∧
    alistLookup ps2 k = some p ∧
    alistLookup (paramValues ps2) k = some p.param.value := by
  have hp1 : alistLookup ps1 k = some p :=
    applyKwargsLoop_preserves c.params kwargs ps1 k p hok1 hp hnk
  have hp2 : alistLookup ps2 k = some p :=
    fromVarLoop_preserves g (alistKeys ps1) ps1 ps2 k p hok2 hp1 (by rw [hfv, hmiss]; rfl)
  have hfind : kwargs.find? (fun kv => !(alistHasKey c.params kv.1)) = none := by
    rw [List.find?_eq_none]
    intro kv hm
    simp [hkeys kv hm]
  have hupd : updateParameters c.params g kwargs = (ps2, none) := by
    unfold updateParameters
    rw [hok1]
    dsimp only
    rw [hok2]
  refine ⟨?_, hp2, ?_⟩
  · unfold DriverCommand.invoke
    rw [hfind]
    dsimp only
    simp only [Option.getD_some]
    rw [hupd]
    dsimp only
    rw [hfn]
    dsimp only
    rw [hhr]
    rfl
  · rw [alistLookup_paramValues, hp2]
    rfl

def c10cmd : DriverCommand :=
  mkDriverCommand "maybe_var" "ms" "11111111-1111-1111-1111-111111111111" ""
    [("a", intRange "a" 0 10 5), ("b", intRangeVar "b" 0 10 5 "g")] noopFn false none

/-- Parameter state of `c10cmd` after applying `invoke(a=2)` kwargs. -/
def c10ps1 : Params :=
  match applyKwargsLoop c10cmd.params [("a", iv 2)] with
  | .ok ps => ps
  | .error pe => pe.1

/-- Parameter state of `c10cmd` after the (empty-globals) variable
resolution. -/
def c10ps2 : Params :=
  match fromVarLoop [] c10ps1 (alistKeys c10ps1) with
  | .ok ps => ps
  | .error pe => pe.1

/-- Witness for C10: parameter `b` is indirected to variable `"g"`,
the globals are empty, and `invoke(a=2)` succeeds, keeps `b = 5` and
passes 5 for `b` to the callable. -/
theorem C10_witness :
    (c10cmd.invoke (some []) (some []) [("a", iv 2)]).ret = .ok none ∧
    alistLookup c10ps2 "b" = some ((intRangeVar "b" 0 10 5 "g").mkInstance) ∧
    alistLookup (paramValues c10ps2) "b" = some (iv 5) :=
  C10_missing_variable_skipped c10cmd [] [] [("a", iv 2)] "b"
    ((intRangeVar "b" 0 10 5 "g").mkInstance) c10ps1 c10ps2 [] (by decide) (by decide)
    (by decide) (by decide) (by decide) (by decide) (by decide) (by decide) (by decide)

/-! Lemmas about sequential workflow execution (claims C3, C6). -/

theorem execSteps_fail_at (z1 : List (DriverCommand × KW × SV)) (cf : DriverCommand)
    (kwf : KW) (svf : SV) (z2 : List (DriverCommand × KW × SV)) (g0 : Globals)
    (cs1 : List DriverCommand) (g1 : Globals) (log1 : List (Option ResultDict)) (e : InvokeErr)
    (hpre : execSteps z1 g0 = (cs1, g1, .ok log1))
    (hfail : (cf.invoke (some g1) (some svf) kwf).ret = .error e) :
    execSteps (z1 ++ (cf, kwf, svf) :: z2) g0 =
      (cs1 ++ (cf.invoke (some g1) (some svf) kwf).cmd :: z2.map (fun t => t.1),
       (cf.invoke (some g1) (some svf) kwf).globals, .error e) := by
  induction z1 generalizing g0 cs1 log1 with
  | nil =>
    unfold execSteps at hpre
    cases hpre
    rw [List.nil_append]
    unfold execSteps
    dsimp only
    rw [hfail]
    rfl
  | cons t rest ih =>
    obtain ⟨c, kw, sv⟩ := t
    unfold execSteps at hpre
    dsimp only at hpre
    cases hret : (c.invoke (some g0) (some sv) kw).ret with
    | error e2 =>
      rw [hret] at hpre
      dsimp only at hpre
      cases hpre
    | ok r =>
      rw [hret] at hpre
      dsimp only at hpre
      cases hrest : execSteps rest (c.invoke (some g0) (some sv) kw).globals with
      | mk cs' rest2 =>
        obtain ⟨g2, res2⟩ := rest2
        rw [hrest] at hpre
        dsimp only at hpre
        cases res2 with
        | error e3 => cases hpre
        | ok log2 =>
          have hcs : cs1 = (c.invoke (some g0) (some sv) kw).cmd :: cs' := by
            cases hpre
            rfl
          have hg : g1 = g2 := by
            cases hpre
            rfl
          subst hcs hg
          rw [List.cons_append]
          unfold execSteps
          dsimp only
          rw [hret]
          dsimp only
          rw [ih _ _ _ (by rw [hrest])]
          rfl

/-- C3 (amended): if every step before index i succeeds and the command
at index i raises, `exec` aborts the remaining steps (their commands'
runtime state is untouched), the exception propagates to the caller, and
`globals` reflects all completed steps' `save_vars` writes; but the
already-produced results of steps `0..i-1` are NOT observable by the
caller — the local result log is discarded when the exception
propagates, so the error return carries no results. -/
theorem C3_step_failure_aborts (nm : String) (g0 : Globals)
    (pre : List (DriverCommand × KW × SV)) (cf : DriverCommand) (kwf : KW) (svf : SV)
    (post : List (DriverCommand × KW × SV))
    (cs1 : List DriverCommand) (g1 : Globals) (log1 : List (Option ResultDict)) (e : InvokeErr)
    (hpre : execSteps pre g0 = (cs1, g1, .ok log1))
    (hfail : (cf.invoke (some g1) (some svf) kwf).ret = .error e) :
    DriverWorkflow.exec
        ⟨nm, (pre.map (fun t => t.1)) ++ cf :: (post.map (fun t => t.1)), g0⟩
        (some ((pre.map (fun t => some t.2.1)) ++ some kwf :: (post.map (fun t => some t.2.1))))
        (some ((pre.map (fun t => some t.2.2)) ++ some svf :: (post.map (fun t => some t.2.2)))) =
      (⟨nm, cs1 ++ (cf.invoke (some g1) (some svf) kwf).cmd :: (post.map (fun t => t.1)),
         (cf.invoke (some g1) (some svf) kwf).globals⟩,
       .error (.stepFailed e)) := by
  have hzip : ((pre.map (fun t => t.1)) ++ cf :: (post.map (fun t => t.1))).zip
      (((pre.map (fun t => t.2.1)) ++ kwf :: (post.map (fun t => t.2.1))).zip
        ((pre.map (fun t => t.2.2)) ++ svf :: (post.map (fun t => t.2.2)))) =
      pre ++ (cf, kwf, svf) :: post := by
    rw [List.zip_append (by simp), List.zip_cons_cons, List.zip_map', List.zip_map']
    rw [List.zip_append (by simp), List.zip_cons_cons, List.zip_map', List.zip_map']
    simp
  unfold DriverWorkflow.exec
  dsimp only
  have hlk : ((pre.map (fun t => some t.2.1)) ++ some kwf :: (post.map (fun t => some t.2.1))).map
      (fun o => o.getD ([] : KW)) =
      (pre.map (fun t => t.2.1)) ++ kwf :: (post.map (fun t => t.2.1)) := by
    simp [Function.comp_def]
  have hlsv : ((pre.map (fun t => some t.2.2)) ++ some svf :: (post.map (fun t => some t.2.2))).map
      (fun o => o.getD ([] : SV)) =
      (pre.map (fun t => t.2.2)) ++ svf :: (post.map (fun t => t.2.2)) := by
    simp [Function.comp_def]
  rw [hlk, hlsv]
  rw [if_neg (by simp), if_neg (by simp)]
  rw [hzip]
  rw [execSteps_fail_at pre cf kwf svf post g0 cs1 g1 log1 e hpre hfail]

/-- A callable producing the result `{x: 7}`. -/
def prodFn : Fn := fun _ => .ok [("x", iv 7)]

/-- A callable that raises. -/
def failFn : Fn := fun _ => .error ()

def c3cA : DriverCommand :=
  mkDriverCommand "produce" "ms" "11111111-1111-1111-1111-111111111111" "" [] prodFn true none

def c3cB : DriverCommand :=
  mkDriverCommand "boom" "ms" "11111111-1111-1111-1111-111111111111" "" [] failFn true none

def c3wf : DriverWorkflow := { name := "w", commands := [c3cA, c3cB], wf_globals := [] }

/-- C3 (counterexample): in the two-step workflow `[produce, boom]`
where step 0 succeeds (returning `{x:7}`, saved to global `g`) and step
1 raises, `exec` returns only the propagated exception — `result_log` is
a local variable of `exec` and is lost, so the caller can NOT observe
the output of completed step 0, contradicting the claim; the globals do
retain step 0's write. -/
theorem C3_counterexample :
    (c3wf.exec (some [some [], some []]) (some [some [("x", "g")], some []])).2 =
      .error (.stepFailed .fnRaised) ∧
    (c3wf.exec (some [some [], some []]) (some [some [("x", "g")], some []])).1.wf_globals =
      [("g", iv 7)] := by
  constructor
  · rfl
  · rfl

/-- Witness for C3 (amended) at the concrete two-step workflow: the
failing exec returns the step's exception, no result log, and the
globals written by the completed step. -/
theorem C3_witness :
    DriverWorkflow.exec ⟨"w", [c3cA, c3cB], []⟩
        (some [some [], some []]) (some [some [("x", "g")], some []]) =
      (⟨"w", [(c3cA.invoke (some []) (some [("x", "g")]) []).cmd,
              (c3cB.invoke (some [("g", iv 7)]) (some []) []).cmd],
        (c3cB.invoke (some [("g", iv 7)]) (some []) []).globals⟩,
       .error (.stepFailed .fnRaised)) :=
  C3_step_failure_aborts "w" [] [(c3cA, [], [("x", "g")])] c3cB [] [] []
    [(c3cA.invoke (some []) (some [("x", "g")]) []).cmd] [("g", iv 7)]
    [(c3cA.invoke (some []) (some [("x", "g")]) []).ret.toOption.getD none] .fnRaised rfl rfl

theorem alistLookup_mem_keys {α : Type} (d : List (String × α)) (k : String) (a : α)
    (h : alistLookup d k = some a) : k ∈ alistKeys d := by
  induction d with
  | nil => cases h
  | cons kv rest ih =>
    unfold alistLookup at h
    by_cases hk : kv.1 = k
    · simp [alistKeys, hk]
    · rw [if_neg hk] at h
      simp [alistKeys]
      right
      have := ih h
      simpa [alistKeys] using this

theorem paramShape_keys (ps : Params) : alistKeys (paramShape ps) = alistKeys ps := by
  induction ps with
  | nil => rfl
  | cons kp rest ih =>
    simp only [paramShape, alistKeys, List.map_cons] at ih ⊢
    rw [ih]

theorem paramShape_lookup (ps ps0 : Params) (k : String)
    (hsh : paramShape ps = paramShape ps0)
    (p0 : ParamInstance) (hp : alistLookup ps0 k = some p0) :
    ∃ p, alistLookup ps k = some p ∧ eraseValue p = eraseValue p0 := by
  induction ps0 generalizing ps with
  | nil => cases hp
  | cons kp0 rest0 ih =>
    cases ps with
    | nil => simp [paramShape] at hsh
    | cons kp rest =>
      obtain ⟨k0, p00⟩ := kp0
      obtain ⟨k1, p10⟩ := kp
      simp only [paramShape, List.map_cons, List.cons.injEq, Prod.mk.injEq] at hsh
      obtain ⟨⟨hkeq, hpeq⟩, hrest⟩ := hsh
      unfold alistLookup at hp ⊢
      by_cases hk : k0 = k
      · rw [if_pos hk] at hp
        cases hp
        rw [if_pos (hkeq.trans hk)]
        exact ⟨p10, rfl, hpeq⟩
      · rw [if_neg hk] at hp
        rw [if_neg (fun hc => hk (hkeq ▸ hc))]
        exact ih rest hrest hp

theorem setParamValue_lookup_hit (ps : Params) (k : String) (v : Val) (ps2 : Params)
    (p : ParamInstance) (v2 : Val)
    (h : setParamValue ps k v = .ok ps2)
    (hp : alistLookup ps k = some p)
    (hval : validateValue p.model v = .ok v2) :
    alistLookup ps2 k = some { p with param := { p.param with value := v2 } } := by
  induction ps generalizing ps2 with
  | nil => cases hp
  | cons kp rest ih =>
    obtain ⟨k1, p1⟩ := kp
    unfold setParamValue at h
    unfold alistLookup at hp
    by_cases hk : k1 = k
    · rw [if_pos hk] at h hp
      cases hp
      unfold ParamInstance.setValue at h
      rw [hval] at h
      cases h
      unfold alistLookup
      rw [if_pos hk]
    · rw [if_neg hk] at h hp
      cases hrec : setParamValue rest k v with
      | ok rest2 =>
        rw [hrec] at h
        cases h
        unfold alistLookup
        rw [if_neg hk]
        exact ih _ hrec hp
      | error e => rw [hrec] at h; cases h

theorem fromVarLoop_preserves_notin (g : Globals) (keys : List String) (ps ps2 : Params)
    (k : String) (p : ParamInstance)
    (h : fromVarLoop g ps keys = .ok ps2)
    (hp : alistLookup ps k = some p)
    (hnotin : k ∉ keys) :
    alistLookup ps2 k = some p := by
  induction keys generalizing ps with
  | nil => cases h; exact hp
  | cons k2 rest ih =>
    have hk : k2 ≠ k := fun hc => hnotin (hc ▸ List.mem_cons_self _ _)
    unfold fromVarLoop at h
    cases hl : alistLookup ps k2 with
    | none => rw [hl] at h; dsimp only at h; exact ih ps h hp (fun hm => hnotin (List.mem_cons_of_mem _ hm))
    | some q =>
      rw [hl] at h
      dsimp only at h
      by_cases hc : (q.param.from_var && alistHasKey g q.param.var_name) = true
      · rw [if_pos hc] at h
        cases hs : setParamValue ps k2 ((alistLookup g q.param.var_name).getD none) with
        | ok psm =>
          rw [hs] at h
          have hp2 : alistLookup psm k = some p :=
            (setParamValue_lookup_ne ps k2 _ psm k hs (fun hc2 => hk hc2.symm)).trans hp
          exact ih psm h hp2 (fun hm => hnotin (List.mem_cons_of_mem _ hm))
        | error e => rw [hs] at h; cases h
      · rw [if_neg hc] at h
        exact ih ps h hp (fun hm => hnotin (List.mem_cons_of_mem _ hm))

theorem fromVarLoop_assigns (g : Globals) (keys : List String) (ps ps2 : Params)
    (k : String) (p : ParamInstance) (v : Val)
    (hnd : keys.Nodup)
    (h : fromVarLoop g ps keys = .ok ps2)
    (hp : alistLookup ps k = some p)
    (hfv : p.param.from_var = true)
    (hvn : alistLookup g p.param.var_name = some v)
    (hkmem : k ∈ keys)
    (hvv : validateValue p.model v = .ok v) :
    alistLookup ps2 k = some { p with param := { p.param with value := v } } := by
  induction keys generalizing ps with
  | nil => cases hkmem
  | cons k2 rest ih =>
    unfold fromVarLoop at h
    by_cases hk : k2 = k
    · subst hk
      have hnotin : k2 ∉ rest := (List.nodup_cons.mp hnd).1
      rw [hp] at h
      dsimp only at h
      have hhk : alistHasKey g p.param.var_name = true := by
        unfold alistHasKey
        rw [hvn]
        rfl
      rw [if_pos (by rw [hfv, hhk]; rfl)] at h
      cases hs : setParamValue ps k2 ((alistLookup g p.param.var_name).getD none) with
      | ok psm =>
        rw [hs] at h
        have hv2 : (alistLookup g p.param.var_name).getD none = v := by rw [hvn]; rfl
        rw [hv2] at hs
        have hp2 := setParamValue_lookup_hit ps k2 v psm p v hs hp hvv
        exact fromVarLoop_preserves_notin g rest psm ps2 k2 _ h hp2 hnotin
      | error e => rw [hs] at h; cases h
    · cases hl : alistLookup ps k2 with
      | none =>
        rw [hl] at h
        dsimp only at h
        exact ih ps ((List.nodup_cons.mp hnd).2) h hp ((List.mem_cons.mp hkmem).resolve_left (fun hc => hk hc.symm))
      | some q =>
        rw [hl] at h
        dsimp only at h
        by_cases hc : (q.param.from_var && alistHasKey g q.param.var_name) = true
        · rw [if_pos hc] at h
          cases hs : setParamValue ps k2 ((alistLookup g q.param.var_name).getD none) with
          | ok psm =>
            rw [hs] at h
            have hp2 : alistLookup psm k = some p :=
              (setParamValue_lookup_ne ps k2 _ psm k hs (fun hc2 => hk hc2.symm)).trans hp
            exact ih psm ((List.nodup_cons.mp hnd).2) h hp2 ((List.mem_cons.mp hkmem).resolve_left (fun hc2 => hk hc2.symm))
          | error e => rw [hs] at h; cases h
        · rw [if_neg hc] at h
          exact ih ps ((List.nodup_cons.mp hnd).2) h hp ((List.mem_cons.mp hkmem).resolve_left (fun hc2 => hk hc2.symm))

theorem invoke_plain_ok (c : DriverCommand) (g1 : Globals) (kw : KW) (ps2 : Params)
    (res : ResultDict)
    (hfind : kw.find? (fun kv => !(alistHasKey c.params kv.1)) = none)
    (hupd : updateParameters c.params g1 kw = (ps2, none))
    (hfn : c.fn (paramValues ps2) = .ok res)
    (hr : c.has_return = true) :
    c.invoke (some g1) (some []) kw =
      { ret := .ok (some res), cmd := { c with params := ps2 }, globals := g1 } := by
  unfold DriverCommand.invoke
  rw [hfind]
  dsimp only
  simp only [Option.getD_some]
  rw [hupd]
  dsimp only
  rw [hfn]
  dsimp only
  rw [hr]
  rfl

/-- C6: in a two-command driver workflow where command 1 executes with
`save_vars = {x: g}` and command 2 has a parameter indirected to
variable `g`, `exec` threads the one shared globals mapping through both
steps (step 2 runs against exactly the globals step 1 mutated), so
command 2's callable receives for that parameter exactly the value
command 1 produced for `x` (provided that value passes the parameter's
own validation unchanged). -/
theorem C6_two_step_threading (nm : String) (c1 c2 : DriverCommand) (g : Globals)
    (kw1 kw2 : KW) (ret1 : Option ResultDict) (v : Val) (pname : String)
    (p2 : ParamInstance) (ps2 : Params) (res2 : ResultDict)
    (hnd2 : (alistKeys c2.params).Nodup)
    (hret1 : (c1.invoke (some g) (some [("x", "g")]) kw1).ret = .ok ret1)
    (hg : alistLookup (c1.invoke (some g) (some [("x", "g")]) kw1).globals "g" = some v)
    (hp : alistLookup c2.params pname = some p2)
    (hfv : p2.param.from_var = true)
    (hvn : p2.param.var_name = "g")
    (hvv : validateValue p2.model v = .ok v)
    (hk2 : ∀ kv ∈ kw2, alistHasKey c2.params kv.1 = true)
    (hupd : updateParameters c2.params
      (c1.invoke (some g) (some [("x", "g")]) kw1).globals kw2 = (ps2, none))
    (hfn2 : c2.fn (paramValues ps2) = .ok res2)
    (hr2 : c2.has_return = true) :
    DriverWorkflow.exec ⟨nm, [c1, c2], g⟩ (some [some kw1, some kw2])
        (some [some [("x", "g")], some []]) =
      (⟨nm, [(c1.invoke (some g) (some [("x", "g")]) kw1).cmd, { c2 with params := ps2 }],
        (c1.invoke (some g) (some [("x", "g")]) kw1).globals⟩, .ok [ret1, some res2]) ∧
    alistLookup (paramValues ps2) pname = some v := by
  have hfind : kw2.find? (fun kv => !(alistHasKey c2.params kv.1)) = none := by
    rw [List.find?_eq_none]
    intro kv hm
    simp [hk2 kv hm]
  have hinv2 := invoke_plain_ok c2 (c1.invoke (some g) (some [("x", "g")]) kw1).globals
    kw2 ps2 res2 hfind hupd hfn2 hr2
  constructor
  · unfold DriverWorkflow.exec
    dsimp only
    rw [if_neg (fun h => h rfl), if_neg (fun h => h rfl)]
    simp only [List.map_cons, List.map_nil, Option.getD_some, List.zip_cons_cons,
      List.zip_nil_right]
    unfold execSteps
    dsimp only
    rw [hret1]
    dsimp only
    unfold execSteps
    dsimp only
    rw [hinv2]
    dsimp only
    unfold execSteps
    rfl
  · have hsplit : ∃ ps1, applyKwargsLoop c2.params kw2 = .ok ps1 ∧
        fromVarLoop (c1.invoke (some g) (some [("x", "g")]) kw1).globals ps1
          (alistKeys ps1) = .ok ps2 := by
      unfold updateParameters at hupd
      cases ha : applyKwargsLoop c2.params kw2 with
      | error pe =>
        rw [ha] at hupd
        dsimp only at hupd
        cases hre : restoreParams pe.1 (paramValues c2.params) with
        | mk psr oe =>
          rw [hre] at hupd
          cases oe with
          | none => dsimp only at hupd; cases hupd
          | some e2 => dsimp only at hupd; cases hupd
      | ok ps1 =>
        rw [ha] at hupd
        dsimp only at hupd
        cases hf : fromVarLoop (c1.invoke (some g) (some [("x", "g")]) kw1).globals ps1
            (alistKeys ps1) with
        | error pe =>
          rw [hf] at hupd
          dsimp only at hupd
          cases hre : restoreParams pe.1 (paramValues c2.params) with
          | mk psr oe =>
            rw [hre] at hupd
            cases oe with
            | none => dsimp only at hupd; cases hupd
            | some e2 => dsimp only at hupd; cases hupd
        | ok ps2b =>
          rw [hf] at hupd
          dsimp only at hupd
          cases hupd
          exact ⟨ps1, rfl, hf⟩
    obtain ⟨ps1, ha, hf⟩ := hsplit
    have hshape : paramShape ps1 = paramShape c2.params :=
      applyKwargsLoop_shape_ok _ _ _ ha
    obtain ⟨q, hq, hqe⟩ := paramShape_lookup ps1 c2.params pname hshape p2 hp
    have hqm : q.model = p2.model := by
      have h2 := congrArg ParamInstance.model hqe
      simpa [eraseValue] using h2
    have hqf : q.param.from_var = p2.param.from_var := by
      have h2 := congrArg (fun z => z.param.from_var) hqe
      simpa [eraseValue] using h2
    have hqn : q.param.var_name = p2.param.var_name := by
      have h2 := congrArg (fun z => z.param.var_name) hqe
      simpa [eraseValue] using h2
    have hkeys1 : alistKeys ps1 = alistKeys c2.params := by
      have h2 := congrArg alistKeys hshape
      rwa [paramShape_keys, paramShape_keys] at h2
    have hnd1 : (alistKeys ps1).Nodup := by rw [hkeys1]; exact hnd2
    have hmem : pname ∈ alistKeys ps1 := alistLookup_mem_keys ps1 pname q hq
    have hassign := fromVarLoop_assigns _ (alistKeys ps1) ps1 ps2 pname q v hnd1 hf hq
      (by rw [hqf, hfv]) (by rw [hqn, hvn]; exact hg) hmem (by rw [hqm]; exact hvv)
    rw [alistLookup_paramValues, hassign]
    rfl

def c6c1 : DriverCommand :=
  mkDriverCommand "produce6" "ms" "11111111-1111-1111-1111-111111111111" "" [] prodFn true none

def c6c2 : DriverCommand :=
  mkDriverCommand "consume6" "ms" "11111111-1111-1111-1111-111111111111" ""
    [("p", intRangeVar "p" 0 10 0 "g")] echoFn true none

/-- The parameter state of `c6c2` after resolving `p` from the globals
written by `c6c1` (`p = 7`). -/
def c6ps2 : Params :=
  (updateParameters c6c2.params (c6c1.invoke (some []) (some [("x", "g")]) []).globals []).1

/-- Witness for C6: command 1 produces `{x: 7}` saved to global `g`;
command 2's parameter `p` is indirected to `g`; the workflow executes
and command 2's callable (an echo) receives `p = 7`. -/
theorem C6_witness :
    DriverWorkflow.exec ⟨"w6", [c6c1, c6c2], []⟩ (some [some [], some []])
        (some [some [("x", "g")], some []]) =
      (⟨"w6", [(c6c1.invoke (some []) (some [("x", "g")]) []).cmd,
               { c6c2 with params := c6ps2 }],
        (c6c1.invoke (some []) (some [("x", "g")]) []).globals⟩,
       .ok [some [("x", iv 7)], some (paramValues c6ps2)]) ∧
    alistLookup (paramValues c6ps2) "p" = some (iv 7) :=
  C6_two_step_threading "w6" c6c1 c6c2 [] [] [] (some [("x", iv 7)]) (iv 7) "p"
    ((intRangeVar "p" 0 10 0 "g").mkInstance) c6ps2 (paramValues c6ps2)
    (by decide) (by decide) (by decide) (by decide) (by decide) (by decide) (by decide)
    (by decide) (by decide) rfl rfl

/-! Interpreter lookup (claim C4) and template sharing (claim C2). -/

/-- The error channel of an interpreter result (ignoring the payload,
which contains callables and has no decidable equality). -/
def interpErrOf {α : Type} : Except InterpErr α → Option InterpErr
| .ok _ => none
| .error e => some e

/-- The current value of one registered parameter of one registered
command of a library (observer used to witness template mutation). -/
def libParamValue (lib : DriverCommandLibrary) (ms cmd pk : String) : Option Val :=
  match alistLookup lib.microservices ms with
  | none => none
  | some m =>
    match alistLookup m.commands cmd with
    | none => none
    | some c => (alistLookup c.params pk).map (fun p => p.param.value)

def c4cmd : DriverCommand :=
  mkDriverCommand "c" "m" "11111111-1111-1111-1111-111111111111" ""
    [("a", intRange "a" 0 10 5)] noopFn true none

def c4lib : DriverCommandLibrary :=
  { name := "lib"
    microservices :=
      [("m", { name := "m", uuid := "11111111-1111-1111-1111-111111111111",
               commands := [("c", c4cmd)] })] }

/-- A run command whose uuid is absent from the library's uuid index but
whose microservice name is registered. -/
def c4rc : RunCommand :=
  { name := "c", microservice := "m", uuid := "22222222-2222-2222-2222-222222222222",
    parameters := [("a", { value := iv 3 })] }

def c4rw : RunWorkflow := { name := "w4", commands := [c4rc] }

/-- C4 (counterexample): a run command whose `uuid` is absent from the
library's uuid index but whose `microservice` name is registered is
interpreted WITHOUT any error: `interpret_workflow` looks the
microservice up by name (`self.driver_library[run_command.microservice]`)
and never consults the uuid index, so no `UnknownMicroservice` is
raised. -/
theorem C4_counterexample :
    alistHasKey c4lib.uuidIndex c4rc.uuid = false ∧
    interpErrOf (interpretWorkflow c4lib c4rw) = none := by
  constructor
  · decide
  · rfl

/-- C4 (amended): `interpret_workflow` resolves each run command's
microservice by NAME in the library's primary map — a missing name
raises the `KeyError` (`UnknownMicroservice`) before any command is
resolved or executed; an absent `uuid` by itself is not detected there.
The by-uuid lookup in the uuid index, raising `UnknownMicroservice` for
a missing uuid, exists only in the helper `_interpret_command`, which
`interpret_workflow` does not call. -/
theorem C4_name_lookup (lib : DriverCommandLibrary) (rw : RunWorkflow)
    (rc : RunCommand) (rest : List RunCommand)
    (hcmds : rw.commands = rc :: rest)
    (hmiss : alistLookup lib.microservices rc.microservice = none) :
    interpretWorkflow lib rw = .error .unknownMicroservice ∧
    (∀ (lib2 : DriverCommandLibrary) (rc2 : RunCommand),
      alistHasKey lib2.uuidIndex rc2.uuid = false →
      interpretCommand lib2 rc2 = .error .unknownMicroservice) := by
  constructor
  · unfold interpretWorkflow
    rw [hcmds]
    unfold interpretWorkflowLoop
    unfold interpretWorkflowStep
    rw [hmiss]
  · intro lib2 rc2 h
    unfold interpretCommand
    rw [h]
    rfl

def c4rcBadName : RunCommand :=
  { name := "c", microservice := "other", uuid := "11111111-1111-1111-1111-111111111111",
    parameters := [] }

/-- Witness for C4 (amended): a run command naming an unregistered
microservice makes `interpret_workflow` raise, and the helper
`_interpret_command` raises for the absent uuid of `c4rc`. -/
theorem C4_witness :
    interpretWorkflow c4lib { name := "w4b", commands := [c4rcBadName] } =
      .error .unknownMicroservice ∧
    interpretCommand c4lib c4rc = .error .unknownMicroservice :=
  ⟨(C4_name_lookup c4lib { name := "w4b", commands := [c4rcBadName] } c4rcBadName []
      rfl rfl).1,
   (C4_name_lookup c4lib { name := "w4b", commands := [c4rcBadName] } c4rcBadName []
      rfl rfl).2 c4lib c4rc (by decide)⟩

def c2lib : DriverCommandLibrary :=
  { name := "lib2"
    microservices :=
      [("m", { name := "m", uuid := "11111111-1111-1111-1111-111111111111",
               commands := [("c", mkDriverCommand "c" "m"
                 "11111111-1111-1111-1111-111111111111" ""
                 [("a", intRange "a" 0 10 5)] noopFn true none)] })] }

def c2rc : RunCommand :=
  { name := "c", microservice := "m", uuid := "11111111-1111-1111-1111-111111111111",
    parameters := [("a", { value := iv 3 })] }

def c2rw : RunWorkflow := { name := "w2", commands := [c2rc] }

/-- The library after interpreting `c2rw` (identical object graph: the
shallow `model_copy` shares the parameter dictionaries, so the binding
mutates the registered template). -/
def c2libAfter : DriverCommandLibrary :=
  match interpretWorkflow c2lib c2rw with
  | .ok pr => pr.2
  | .error _ => c2lib

/-- C2 (failing input): before interpretation the registered template's
parameter `a` holds its default 5; interpreting a run workflow that
binds `a := 3` succeeds, and afterwards the REGISTERED TEMPLATE's
working container holds 3 — `model_copy()` is shallow, the copy shares
`parameters`/`_parameters` with the template, and
`set_param_values_from_run_command` therefore mutates the registered
command, contradicting the claimed deep-copy isolation. -/
theorem C2_template_mutated :
    libParamValue c2lib "m" "c" "a" = some (iv 5) ∧
    interpErrOf (interpretWorkflow c2lib c2rw) = none ∧
    libParamValue c2libAfter "m" "c" "a" = some (iv 3) := by
  refine ⟨rfl, rfl, rfl⟩

/-! Idempotence of container validation: a value a container has already
accepted re-validates to itself.  Used to relate the interpreter's
re-application of run-command values to a direct invoke (claim C5). -/

theorem pydanticCoerce_idem (dt : DType) (v w : PVal)
    (h : pydanticCoerce dt v = some w) : pydanticCoerce dt w = some w := by
  cases dt with
  | dint =>
    cases v with
    | vInt n => simp only [pydanticCoerce] at h; cases h; rfl
    | vFloat q =>
      simp only [pydanticCoerce] at h
      by_cases hd : (q.den == 1) = true
      · rw [if_pos hd] at h; cases h; rfl
      · rw [if_neg hd] at h; cases h
    | vStr s =>
      simp only [pydanticCoerce] at h
      cases hp : s.trim.toInt? with
      | none => rw [hp, Option.map_none'] at h; cases h
      | some n => rw [hp, Option.map_some'] at h; cases h; rfl
    | vBool b => simp only [pydanticCoerce] at h; cases h
  | dfloat =>
    cases v with
    | vInt n => simp only [pydanticCoerce] at h; cases h; rfl
    | vFloat q => simp only [pydanticCoerce] at h; cases h; rfl
    | vStr s =>
      simp only [pydanticCoerce] at h
      cases hp : parseFloat? s with
      | none => rw [hp, Option.map_none'] at h; cases h
      | some q => rw [hp, Option.map_some'] at h; cases h; rfl
    | vBool b => simp only [pydanticCoerce] at h; cases h
  | dstr =>
    cases v with
    | vInt n => simp only [pydanticCoerce] at h; cases h
    | vFloat q => simp only [pydanticCoerce] at h; cases h
    | vStr s => simp only [pydanticCoerce] at h; cases h; rfl
    | vBool b => simp only [pydanticCoerce] at h; cases h
  | dbool =>
    cases v with
    | vBool b => simp only [pydanticCoerce] at h; cases h; rfl
    | vInt n =>
      simp only [pydanticCoerce] at h
      by_cases h0 : (n == 0) = true
      · rw [if_pos h0] at h; cases h; rfl
      · rw [if_neg h0] at h
        by_cases h1 : (n == 1) = true
        · rw [if_pos h1] at h; cases h; rfl
        · rw [if_neg h1] at h; cases h
    | vFloat q =>
      simp only [pydanticCoerce] at h
      by_cases h0 : (q == 0) = true
      · rw [if_pos h0] at h; cases h; rfl
      · rw [if_neg h0] at h
        by_cases h1 : (q == 1) = true
        · rw [if_pos h1] at h; cases h; rfl
        · rw [if_neg h1] at h; cases h
    | vStr s =>
      simp only [pydanticCoerce] at h
      by_cases hm : s ∈ ["true", "True", "1", "yes", "on"]
      · rw [if_pos hm] at h; cases h; rfl
      · rw [if_neg hm] at h
        by_cases hm2 : s ∈ ["false", "False", "0", "no", "off"]
        · rw [if_pos hm2] at h; cases h; rfl
        · rw [if_neg hm2] at h; cases h

theorem pyCast_idem (dt : DType) (v w : PVal)
    (h : pyCast dt v = some w) : pyCast dt w = some w := by
  cases dt with
  | dint =>
    cases v with
    | vInt n => simp only [pyCast] at h; cases h; rfl
    | vFloat q => simp only [pyCast] at h; cases h; rfl
    | vStr s =>
      simp only [pyCast] at h
      cases hp : s.trim.toInt? with
      | none => rw [hp, Option.map_none'] at h; cases h
      | some n => rw [hp, Option.map_some'] at h; cases h; rfl
    | vBool b => simp only [pyCast] at h; cases h; rfl
  | dfloat =>
    cases v with
    | vInt n => simp only [pyCast] at h; cases h; rfl
    | vFloat q => simp only [pyCast] at h; cases h; rfl
    | vStr s =>
      simp only [pyCast] at h
      cases hp : parseFloat? s with
      | none => rw [hp, Option.map_none'] at h; cases h
      | some q => rw [hp, Option.map_some'] at h; cases h; rfl
    | vBool b => simp only [pyCast] at h; cases h; rfl
  | dstr =>
    cases v with
    | vInt n => simp only [pyCast] at h; cases h; rfl
    | vFloat q => simp only [pyCast] at h; cases h; rfl
    | vStr s => simp only [pyCast] at h; cases h; rfl
    | vBool b => simp only [pyCast] at h; cases h; rfl
  | dbool =>
    cases v with
    | vInt n => simp only [pyCast] at h; cases h; rfl
    | vFloat q => simp only [pyCast] at h; cases h; rfl
    | vStr s => simp only [pyCast] at h; cases h; rfl
    | vBool b => simp only [pyCast] at h; cases h; rfl

theorem mapM_pyCast_idem (dt : DType) (vs ws : List PVal)
    (h : vs.mapM (pyCast dt) = some ws) : ws.mapM (pyCast dt) = some ws := by
  induction vs generalizing ws with
  | nil =>
    cases h
    rfl
  | cons a rest ih =>
    rw [List.mapM_cons] at h
    cases ha : pyCast dt a with
    | none => rw [ha] at h; cases h
    | some b =>
      rw [ha] at h
      cases hrest : rest.mapM (pyCast dt) with
      | none => rw [hrest] at h; simp [hrest] at h
      | some bs =>
        rw [hrest] at h
        simp only [Option.pure_def, Option.bind_eq_bind, Option.bind_some] at h
        cases h
        rw [List.mapM_cons, pyCast_idem dt a b ha, ih bs hrest]
        rfl

theorem listChecks_upper_violation (m : ParameterModel) (vs : List PVal) (u : PVal)
    (hu : m.upper_limit = some u) (hviol : (vs.all fun e => pyLE e u) = false) :
    validateListChecks m vs = .error .upperLimit := by
  simp only [validateListChecks, hu, hviol, Bool.not_false, if_true,
    except_throw_bind, except_error_bind, except_throw_eq_error, Bool.false_eq_true, if_false, except_pure_eq_ok]

theorem listChecks_lower_violation (m : ParameterModel) (vs : List PVal) (l : PVal)
    (hup : ∀ u, m.upper_limit = some u → (vs.all fun e => pyLE e u) = true)
    (hl : m.lower_limit = some l) (hviol : (vs.all fun e => pyLE l e) = false) :
    validateListChecks m vs = .error .lowerLimit := by
  cases hu : m.upper_limit with
  | some u =>
    have h1 := hup u hu
    simp only [validateListChecks, hu, hl, h1, hviol, Bool.not_true, Bool.not_false,
      Bool.false_eq_true, if_false, if_true, except_pure_bind, except_ok_bind, except_throw_bind, except_error_bind,
      except_throw_eq_error, except_pure_eq_ok]
  | none =>
    simp only [validateListChecks, hu, hl, hviol, Bool.not_false, if_true,
      except_pure_bind, except_ok_bind, except_throw_bind, except_error_bind, except_throw_eq_error, Bool.false_eq_true, if_false, except_pure_eq_ok]

theorem listChecks_allowed_violation (m : ParameterModel) (vs : List PVal)
    (hup : ∀ u, m.upper_limit = some u → (vs.all fun e => pyLE e u) = true)
    (hlo : ∀ l, m.lower_limit = some l → (vs.all fun e => pyLE l e) = true)
    (hall : (decide (m.allowed_values.length > 0) &&
      !vs.all fun e => m.allowed_values.any (pyEq e)) = true) :
    validateListChecks m vs = .error .notAllowed := by
  cases hu : m.upper_limit with
  | some u =>
    have h1 := hup u hu
    cases hl : m.lower_limit with
    | some l =>
      have h2 := hlo l hl
      simp only [validateListChecks, hu, hl, h1, h2, hall, Bool.not_true,
        Bool.false_eq_true, if_false, if_true, except_pure_bind, except_ok_bind, except_throw_bind, except_error_bind,
        except_throw_eq_error, except_pure_eq_ok]
    | none =>
      simp only [validateListChecks, hu, hl, h1, hall, Bool.not_true,
        Bool.false_eq_true, if_false, if_true, except_pure_bind, except_ok_bind, except_throw_bind, except_error_bind,
        except_throw_eq_error, except_pure_eq_ok]
  | none =>
    cases hl : m.lower_limit with
    | some l =>
      have h2 := hlo l hl
      simp only [validateListChecks, hu, hl, h2, hall, Bool.not_true,
        Bool.false_eq_true, if_false, if_true, except_pure_bind, except_ok_bind, except_throw_bind, except_error_bind,
        except_throw_eq_error, except_pure_eq_ok]
    | none =>
      simp only [validateListChecks, hu, hl, hall, Bool.not_true,
        Bool.false_eq_true, if_false, if_true, except_pure_bind, except_ok_bind, except_throw_bind, except_error_bind,
        except_throw_eq_error, except_pure_eq_ok]

theorem listChecks_pass (m : ParameterModel) (vs : List PVal)
    (hup : ∀ u, m.upper_limit = some u → (vs.all fun e => pyLE e u) = true)
    (hlo : ∀ l, m.lower_limit = some l → (vs.all fun e => pyLE l e) = true)
    (hall : (decide (m.allowed_values.length > 0) &&
      !vs.all fun e => m.allowed_values.any (pyEq e)) = false) :
    validateListChecks m vs = .ok (some (.l vs)) := by
  cases hu : m.upper_limit with
  | some u =>
    have h1 := hup u hu
    cases hl : m.lower_limit with
    | some l =>
      have h2 := hlo l hl
      simp only [validateListChecks, hu, hl, h1, h2, hall, Bool.not_true,
        Bool.false_eq_true, if_false, except_pure_bind, except_ok_bind, except_pure_eq_ok, if_true, except_throw_eq_error]
    | none =>
      simp only [validateListChecks, hu, hl, h1, hall, Bool.not_true,
        Bool.false_eq_true, if_false, except_pure_bind, except_ok_bind, except_pure_eq_ok, if_true, except_throw_eq_error]
  | none =>
    cases hl : m.lower_limit with
    | some l =>
      have h2 := hlo l hl
      simp only [validateListChecks, hu, hl, h2, hall, Bool.not_true,
        Bool.false_eq_true, if_false, except_pure_bind, except_ok_bind, except_pure_eq_ok, if_true, except_throw_eq_error]
    | none =>
      simp only [validateListChecks, hu, hl, hall, Bool.not_true,
        Bool.false_eq_true, if_false, except_pure_bind, except_ok_bind, except_pure_eq_ok, if_true, except_throw_eq_error]

theorem validateListChecks_ok (m : ParameterModel) (vs : List PVal) (w : Val)
    (h : validateListChecks m vs = .ok w) :
    w = some (.l vs) ∧ validateListChecks m vs = .ok (some (.l vs)) := by
  by_cases hc1 : ∀ u, m.upper_limit = some u → (vs.all fun e => pyLE e u) = true
  · by_cases hc2 : ∀ l, m.lower_limit = some l → (vs.all fun e => pyLE l e) = true
    · by_cases hc3 : (decide (m.allowed_values.length > 0) &&
          !vs.all fun e => m.allowed_values.any (pyEq e)) = true
      · rw [listChecks_allowed_violation m vs hc1 hc2 hc3] at h
        cases h
      · have hpass := listChecks_pass m vs hc1 hc2 (Bool.not_eq_true _ ▸ hc3)
        rw [hpass] at h
        cases h
        exact ⟨rfl, hpass⟩
    · push_neg at hc2
      obtain ⟨l, hl, hviol⟩ := hc2
      rw [listChecks_lower_violation m vs l hc1 hl
        (Bool.not_eq_true _ ▸ hviol)] at h
      cases h
  · push_neg at hc1
    obtain ⟨u, hu, hviol⟩ := hc1
    rw [listChecks_upper_violation m vs u hu (Bool.not_eq_true _ ▸ hviol)] at h
    cases h

theorem scalarChecks_pass (m : ParameterModel) (v0 v1 : PVal)
    (hlist : m.is_list = false)
    (hco : pydanticCoerce m.data_type v0 = some v1)
    (hup : ∀ u, m.upper_limit = some u → pyLE v1 u = true)
    (hlo : ∀ l, m.lower_limit = some l → pyLE l v1 = true)
    (hall : (decide (m.allowed_values.length > 0) && !m.allowed_values.any (pyEq v1)) = false) :
    validateValue m (some (.s v0)) = .ok (some (.s v1)) := by
  cases hu : m.upper_limit with
  | some u =>
    have h1 := hup u hu
    cases hl : m.lower_limit with
    | some l =>
      have h2 := hlo l hl
      simp only [validateValue, hlist, hco, hu, hl, h1, h2, hall, Bool.not_true,
        Bool.false_eq_true, if_false, except_pure_bind, except_ok_bind, except_pure_eq_ok, if_true, except_throw_eq_error]
    | none =>
      simp only [validateValue, hlist, hco, hu, hl, h1, hall, Bool.not_true,
        Bool.false_eq_true, if_false, except_pure_bind, except_ok_bind, except_pure_eq_ok, if_true, except_throw_eq_error]
  | none =>
    cases hl : m.lower_limit with
    | some l =>
      have h2 := hlo l hl
      simp only [validateValue, hlist, hco, hu, hl, h2, hall, Bool.not_true,
        Bool.false_eq_true, if_false, except_pure_bind, except_ok_bind, except_pure_eq_ok, if_true, except_throw_eq_error]
    | none =>
      simp only [validateValue, hlist, hco, hu, hl, hall, Bool.not_true,
        Bool.false_eq_true, if_false, except_pure_bind, except_ok_bind, except_pure_eq_ok, if_true, except_throw_eq_error]

theorem scalarChecks_upper_violation (m : ParameterModel) (v0 v1 : PVal) (u : PVal)
    (hlist : m.is_list = false)
    (hco : pydanticCoerce m.data_type v0 = some v1)
    (hu : m.upper_limit = some u) (hviol : pyLE v1 u = false) :
    validateValue m (some (.s v0)) = .error .upperLimit := by
  simp only [validateValue, hlist, hco, hu, hviol, Bool.not_false, if_true,
    Bool.false_eq_true, if_false, except_throw_bind, except_error_bind, except_throw_eq_error, except_pure_eq_ok]

theorem scalarChecks_lower_violation (m : ParameterModel) (v0 v1 : PVal) (l : PVal)
    (hlist : m.is_list = false)
    (hco : pydanticCoerce m.data_type v0 = some v1)
    (hup : ∀ u, m.upper_limit = some u → pyLE v1 u = true)
    (hl : m.lower_limit = some l) (hviol : pyLE l v1 = false) :
    validateValue m (some (.s v0)) = .error .lowerLimit := by
  cases hu : m.upper_limit with
  | some u =>
    have h1 := hup u hu
    simp only [validateValue, hlist, hco, hu, hl, h1, hviol, Bool.not_true,
      Bool.not_false, Bool.false_eq_true, if_false, if_true, except_pure_bind, except_ok_bind,
      except_throw_bind, except_error_bind, except_throw_eq_error, except_pure_eq_ok]
  | none =>
    simp only [validateValue, hlist, hco, hu, hl, hviol, Bool.not_false, if_true,
      except_pure_bind, except_ok_bind, except_throw_bind, except_error_bind, except_throw_eq_error, Bool.false_eq_true, if_false, except_pure_eq_ok]

theorem scalarChecks_allowed_violation (m : ParameterModel) (v0 v1 : PVal)
    (hlist : m.is_list = false)
    (hco : pydanticCoerce m.data_type v0 = some v1)
    (hup : ∀ u, m.upper_limit = some u → pyLE v1 u = true)
    (hlo : ∀ l, m.lower_limit = some l → pyLE l v1 = true)
    (hall : (decide (m.allowed_values.length > 0) && !m.allowed_values.any (pyEq v1)) = true) :
    validateValue m (some (.s v0)) = .error .notAllowed := by
  cases hu : m.upper_limit with
  | some u =>
    have h1 := hup u hu
    cases hl : m.lower_limit with
    | some l =>
      have h2 := hlo l hl
      simp only [validateValue, hlist, hco, hu, hl, h1, h2, hall, Bool.not_true,
        Bool.false_eq_true, if_false, if_true, except_pure_bind, except_ok_bind, except_throw_bind, except_error_bind,
        except_throw_eq_error, except_pure_eq_ok]
    | none =>
      simp only [validateValue, hlist, hco, hu, hl, h1, hall, Bool.not_true,
        Bool.false_eq_true, if_false, if_true, except_pure_bind, except_ok_bind, except_throw_bind, except_error_bind,
        except_throw_eq_error, except_pure_eq_ok]
  | none =>
    cases hl : m.lower_limit with
    | some l =>
      have h2 := hlo l hl
      simp only [validateValue, hlist, hco, hu, hl, h2, hall, Bool.not_true,
        Bool.false_eq_true, if_false, if_true, except_pure_bind, except_ok_bind, except_throw_bind, except_error_bind,
        except_throw_eq_error, except_pure_eq_ok]
    | none =>
      simp only [validateValue, hlist, hco, hu, hl, hall, Bool.not_true,
        Bool.false_eq_true, if_false, if_true, except_pure_bind, except_ok_bind, except_throw_bind, except_error_bind,
        except_throw_eq_error, except_pure_eq_ok]

theorem scalarCoerce_failure (m : ParameterModel) (v0 : PVal)
    (hlist : m.is_list = false)
    (hco : pydanticCoerce m.data_type v0 = none) :
    validateValue m (some (.s v0)) = .error .typeCast := by
  simp only [validateValue, hlist, hco, Bool.false_eq_true, if_false, if_true, except_throw_eq_error, except_pure_eq_ok]

theorem validateValue_scalar_ok (m : ParameterModel) (v0 : PVal) (w : Val)
    (hlist : m.is_list = false)
    (h : validateValue m (some (.s v0)) = .ok w) :
    ∃ v1, pydanticCoerce m.data_type v0 = some v1 ∧ w = some (.s v1) ∧
      (∀ u, m.upper_limit = some u → pyLE v1 u = true) ∧
      (∀ l, m.lower_limit = some l → pyLE l v1 = true) ∧
      (decide (m.allowed_values.length > 0) && !m.allowed_values.any (pyEq v1)) = false := by
  cases hco : pydanticCoerce m.data_type v0 with
  | none => rw [scalarCoerce_failure m v0 hlist hco] at h; cases h
  | some v1 =>
    by_cases hc1 : ∀ u, m.upper_limit = some u → pyLE v1 u = true
    · by_cases hc2 : ∀ l, m.lower_limit = some l → pyLE l v1 = true
      · by_cases hc3 : (decide (m.allowed_values.length > 0) &&
            !m.allowed_values.any (pyEq v1)) = true
        · rw [scalarChecks_allowed_violation m v0 v1 hlist hco hc1 hc2 hc3] at h
          cases h
        · have hall : (decide (m.allowed_values.length > 0) &&
              !m.allowed_values.any (pyEq v1)) = false := Bool.not_eq_true _ ▸ hc3
          rw [scalarChecks_pass m v0 v1 hlist hco hc1 hc2 hall] at h
          cases h
          exact ⟨v1, rfl, rfl, hc1, hc2, hall⟩
      · push_neg at hc2
        obtain ⟨l, hl, hviol⟩ := hc2
        rw [scalarChecks_lower_violation m v0 v1 l hlist hco hc1 hl
          (Bool.not_eq_true _ ▸ hviol)] at h
        cases h
    · push_neg at hc1
      obtain ⟨u, hu, hviol⟩ := hc1
      rw [scalarChecks_upper_violation m v0 v1 u hlist hco hu
        (Bool.not_eq_true _ ▸ hviol)] at h
      cases h

theorem validateValue_list_ok (m : ParameterModel) (v : Val) (w : Val)
    (hlist : m.is_list = true)
    (h : validateValue m v = .ok w) :
    ∃ vs, w = some (.l vs) ∧ vs.mapM (pyCast m.data_type) = some vs ∧
      validateListChecks m vs = .ok (some (.l vs)) := by
  unfold validateValue at h
  rw [hlist, if_pos rfl] at h
  cases v with
  | none => cases h
  | some vt =>
    cases vt with
    | s sv =>
      cases sv with
      | vStr s =>
        dsimp only at h
        cases hcast : (s.toList.map (fun c => PVal.vStr (String.singleton c))).mapM
            (pyCast m.data_type) with
        | none => rw [hcast] at h; dsimp only at h; cases h
        | some vs =>
          rw [hcast] at h
          dsimp only at h
          obtain ⟨hw, hok⟩ := validateListChecks_ok m vs w h
          exact ⟨vs, hw, mapM_pyCast_idem _ _ _ hcast, hok⟩
      | vInt n => dsimp only at h; cases h
      | vFloat q => dsimp only at h; cases h
      | vBool b => dsimp only at h; cases h
    | l vs0 =>
      dsimp only at h
      cases hcast : vs0.mapM (pyCast m.data_type) with
      | none => rw [hcast] at h; dsimp only at h; cases h
      | some vs =>
        rw [hcast] at h
        dsimp only at h
        obtain ⟨hw, hok⟩ := validateListChecks_ok m vs w h
        exact ⟨vs, hw, mapM_pyCast_idem _ _ _ hcast, hok⟩

theorem validateValue_idem (m : ParameterModel) (v w : Val)
    (h : validateValue m v = .ok w) : validateValue m w = .ok w := by
  by_cases hlist : m.is_list = true
  · obtain ⟨vs, hw, hcast, hok⟩ := validateValue_list_ok m v w hlist h
    subst hw
    unfold validateValue
    rw [hlist, if_pos rfl]
    dsimp only
    rw [hcast]
    exact hok
  · have hl2 : m.is_list = false := Bool.not_eq_true _ ▸ hlist
    unfold validateValue at h
    rw [hl2] at h
    cases v with
    | none =>
      rw [if_neg (by simp)] at h
      dsimp only at h
      cases h
      unfold validateValue
      rw [hl2]
      rfl
    | some vt =>
      cases vt with
      | l vs => cases h
      | s v0 =>
        have h2 : validateValue m (some (.s v0)) = .ok w := by
          unfold validateValue
          rw [hl2]
          exact h
        obtain ⟨v1, hco, hw, hc1, hc2, hall⟩ := validateValue_scalar_ok m v0 w hl2 h2
        subst hw
        exact scalarChecks_pass m v1 v1 hl2 (pydanticCoerce_idem _ _ _ hco) hc1 hc2 hall

/-! Pipeline lemmas for the interpreter round-trip (claim C5). -/

theorem alistHasKey_nil (k : String) : alistHasKey ([] : Globals) k = false := rfl

theorem fromVarLoop_empty_globals (keys : List String) (ps : Params) :
    fromVarLoop [] ps keys = .ok ps := by
  induction keys generalizing ps with
  | nil => rfl
  | cons k rest ih =>
    unfold fromVarLoop
    cases hl : alistLookup ps k with
    | none => exact ih ps
    | some p =>
      dsimp only
      rw [if_neg (by rw [alistHasKey_nil, Bool.and_false]; exact Bool.false_ne_true)]
      exact ih ps

theorem updateParameters_empty_globals (ps0 : Params) (kwargs : KW) (ps1 : Params)
    (h : applyKwargsLoop ps0 kwargs = .ok ps1) :
    updateParameters ps0 [] kwargs = (ps1, none) := by
  unfold updateParameters
  rw [h]
  dsimp only
  rw [fromVarLoop_empty_globals]

theorem alistLookup_eq_none_iff {α : Type} (d : List (String × α)) (k : String) :
    alistLookup d k = none ↔ k ∉ alistKeys d := by
  induction d with
  | nil => simp [alistLookup, alistKeys]
  | cons kv rest ih =>
    unfold alistLookup
    by_cases hk : kv.1 = k
    · simp [hk, alistKeys]
    · simp only [if_neg hk, ih, alistKeys, List.map_cons, List.mem_cons]
      constructor
      · intro h hc
        cases hc with
        | inl h2 => exact hk h2.symm
        | inr h2 => exact h h2
      · intro h
        exact fun hc => h (Or.inr hc)

theorem alistLookup_mem {α : Type} (d : List (String × α)) (k : String) (a : α)
    (h : alistLookup d k = some a) : (k, a) ∈ d := by
  induction d with
  | nil => cases h
  | cons kv rest ih =>
    obtain ⟨k1, a1⟩ := kv
    unfold alistLookup at h
    by_cases hk : k1 = k
    · rw [if_pos hk] at h
      have h2 : a1 = a := by injection h
      subst h2
      subst hk
      exact List.mem_cons_self _ _
    · rw [if_neg hk] at h
      exact List.mem_cons_of_mem _ (ih h)

theorem setParamValue_absent (ps : Params) (k : String) (v : Val)
    (h : alistLookup ps k = none) : setParamValue ps k v = .ok ps := by
  induction ps with
  | nil => rfl
  | cons kp rest ih =>
    unfold alistLookup at h
    unfold setParamValue
    by_cases hk : kp.1 = k
    · rw [if_pos hk] at h
      cases h
    · rw [if_neg hk] at h
      rw [if_neg hk, ih h]

/-- The successful-assignment state: the first container stored under `k`
with its value replaced by the validated result `w`. -/
def psSetVal : Params → String → Val → Params
| [], _, _ => []
| (k, p) :: rest, key, w =>
  if k = key then (k, { p with param := { p.param with value := w } }) :: rest
  else (k, p) :: psSetVal rest key w

theorem setParamValue_succeeds (ps : Params) (k : String) (v : Val)
    (p : ParamInstance) (w : Val)
    (hp : alistLookup ps k = some p)
    (hv : validateValue p.model v = .ok w) :
    setParamValue ps k v = .ok (psSetVal ps k w) := by
  induction ps with
  | nil => cases hp
  | cons kp rest ih =>
    obtain ⟨k1, p1⟩ := kp
    unfold alistLookup at hp
    unfold setParamValue psSetVal
    by_cases hk : k1 = k
    · rw [if_pos hk] at hp
      have hp2 : p1 = p := by injection hp
      subst hp2
      rw [if_pos hk, if_pos hk]
      have hs : ParamInstance.setValue p1 v = .ok { p1 with param := { p1.param with value := w } } := by
        unfold ParamInstance.setValue
        rw [hv]
      rw [hs]
    · rw [if_neg hk] at hp
      rw [if_neg hk, if_neg hk]
      rw [show setParamValue rest k v = .ok (psSetVal rest k w) from ih hp]

theorem psSetVal_shape (ps : Params) (k : String) (w : Val) :
    paramShape (psSetVal ps k w) = paramShape ps := by
  induction ps with
  | nil => rfl
  | cons kp rest ih =>
    obtain ⟨k1, p1⟩ := kp
    unfold psSetVal
    by_cases hk : k1 = k
    · rw [if_pos hk]
      simp only [paramShape, List.map_cons]
      rfl
    · rw [if_neg hk]
      simp only [paramShape, List.map_cons] at ih ⊢
      rw [ih]

theorem applyKwargsLoop_ok_of_valid (kw : KW) (ps : Params)
    (hok : ∀ kv ∈ kw, ∀ p, alistLookup ps kv.1 = some p →
        ∃ w, validateValue p.model kv.2 = .ok w) :
    ∃ ps2, applyKwargsLoop ps kw = .ok ps2 := by
  induction kw generalizing ps with
  | nil => exact ⟨ps, rfl⟩
  | cons kv rest ih =>
    obtain ⟨k0, v0⟩ := kv
    unfold applyKwargsLoop
    cases hl : alistLookup ps k0 with
    | none =>
      rw [setParamValue_absent ps k0 v0 hl]
      exact ih ps (fun kv2 hmem => hok kv2 (List.mem_cons_of_mem _ hmem))
    | some p =>
      obtain ⟨w, hw⟩ := hok (k0, v0) (List.mem_cons_self _ _) p hl
      rw [setParamValue_succeeds ps k0 v0 p w hl hw]
      apply ih
      intro kv2 hmem p2 hp2
      obtain ⟨p3, hp3, he⟩ := paramShape_lookup ps (psSetVal ps k0 w) kv2.1
        (psSetVal_shape ps k0 w).symm p2 hp2
      obtain ⟨w2, hw2⟩ := hok kv2 (List.mem_cons_of_mem _ hmem) p3 hp3
      have hm : p3.model = p2.model := by
        have h4 := congrArg ParamInstance.model he
        exact h4
      exact ⟨w2, by rw [← hm]; exact hw2⟩

theorem applyKwargsLoop_write (kw : KW) (ps ps2 : Params) (k : String) (v : Val)
    (p : ParamInstance) (w : Val)
    (hnd : (kw.map Prod.fst).Nodup)
    (h : applyKwargsLoop ps kw = .ok ps2)
    (hmem : (k, v) ∈ kw)
    (hp : alistLookup ps k = some p)
    (hw : validateValue p.model v = .ok w) :
    alistLookup ps2 k = some { p with param := { p.param with value := w } } := by
  induction kw generalizing ps with
  | nil => cases hmem
  | cons kv rest ih =>
    obtain ⟨k0, v0⟩ := kv
    unfold applyKwargsLoop at h
    simp only [List.map_cons, List.nodup_cons] at hnd
    cases hmem with
    | head =>
      cases hs : setParamValue ps k v with
      | error e => rw [hs] at h; cases h
      | ok ps1 =>
        rw [hs] at h
        have h1 : alistLookup ps1 k = some { p with param := { p.param with value := w } } :=
          setParamValue_lookup_hit ps k v ps1 p w hs hp hw
        exact applyKwargsLoop_preserves ps1 rest ps2 k _ h h1
          (fun kv2 hm2 hkeq => hnd.1 (hkeq ▸ List.mem_map_of_mem Prod.fst hm2))
    | tail _ hmem2 =>
      have hk0 : k0 ≠ k := fun he => hnd.1 (he ▸ List.mem_map_of_mem Prod.fst hmem2)
      cases hs : setParamValue ps k0 v0 with
      | error e => rw [hs] at h; cases h
      | ok ps1 =>
        rw [hs] at h
        have hp1 : alistLookup ps1 k = some p := by
          rw [setParamValue_lookup_ne ps k0 v0 ps1 k hs (Ne.symm hk0)]
          exact hp
        exact ih ps1 hnd.2 h hmem2 hp1

/-- Two parameter dictionaries with duplicate-free keys, the same shape
(keys, models, flags) and the same lookups are equal as dictionaries. -/
theorem params_ext (ps1 : Params) (ps2 : Params)
    (hnd : (alistKeys ps1).Nodup)
    (hsh : paramShape ps1 = paramShape ps2)
    (hlook : ∀ k, alistLookup ps1 k = alistLookup ps2 k) : ps1 = ps2 := by
  induction ps1 generalizing ps2 with
  | nil =>
    cases ps2 with
    | nil => rfl
    | cons kp2 rest2 => simp [paramShape] at hsh
  | cons kp1 rest1 ih =>
    obtain ⟨k1, p1⟩ := kp1
    cases ps2 with
    | nil => simp [paramShape] at hsh
    | cons kp2 rest2 =>
      obtain ⟨k2, p2⟩ := kp2
      simp only [paramShape, List.map_cons, List.cons.injEq, Prod.mk.injEq] at hsh
      obtain ⟨⟨hkeq, _⟩, hsh2⟩ := hsh
      subst hkeq
      have hv := hlook k1
      rw [show alistLookup ((k1, p1) :: rest1) k1 = some p1 from by
            unfold alistLookup; rw [if_pos rfl],
          show alistLookup ((k1, p2) :: rest2) k1 = some p2 from by
            unfold alistLookup; rw [if_pos rfl]] at hv
      have hpe : p1 = p2 := by injection hv
      subst hpe
      have hnd2 : (k1 :: alistKeys rest1).Nodup := by simpa [alistKeys] using hnd
      simp only [List.nodup_cons] at hnd2
      have hsh3 : paramShape rest1 = paramShape rest2 := hsh2
      have hkeys : alistKeys rest1 = alistKeys rest2 := by
        rw [← paramShape_keys rest1, ← paramShape_keys rest2, hsh3]
      congr 1
      apply ih rest2 hnd2.2 hsh3
      intro k
      by_cases hk : k1 = k
      · have h7 : k ∉ alistKeys rest1 := by rw [← hk]; exact hnd2.1
        have h8 : k ∉ alistKeys rest2 := by rw [← hkeys]; exact h7
        rw [(alistLookup_eq_none_iff rest1 k).mpr h7,
            (alistLookup_eq_none_iff rest2 k).mpr h8]
      · have h6 := hlook k
        unfold alistLookup at h6
        rw [if_neg hk, if_neg hk] at h6
        exact h6

theorem psSetVal_lookup_hit (ps : Params) (k : String) (w : Val) (p : ParamInstance)
    (hp : alistLookup ps k = some p) :
    alistLookup (psSetVal ps k w) k = some { p with param := { p.param with value := w } } := by
  induction ps with
  | nil => cases hp
  | cons kp rest ih =>
    obtain ⟨k1, p1⟩ := kp
    unfold alistLookup at hp
    unfold psSetVal
    by_cases hk : k1 = k
    · rw [if_pos hk] at hp
      have hp2 : p1 = p := by injection hp
      subst hp2
      rw [if_pos hk]
      unfold alistLookup
      rw [if_pos hk]
    · rw [if_neg hk] at hp
      rw [if_neg hk]
      unfold alistLookup
      rw [if_neg hk]
      exact ih hp

theorem psSetVal_lookup_ne (ps : Params) (k : String) (w : Val) (k2 : String)
    (hne : k2 ≠ k) : alistLookup (psSetVal ps k w) k2 = alistLookup ps k2 := by
  induction ps with
  | nil => rfl
  | cons kp rest ih =>
    obtain ⟨k1, p1⟩ := kp
    unfold psSetVal
    by_cases hk : k1 = k
    · rw [if_pos hk]
      subst hk
      unfold alistLookup
      rw [if_neg (fun h => hne h.symm), if_neg (fun h => hne h.symm)]
    · rw [if_neg hk]
      unfold alistLookup
      by_cases hk2 : k1 = k2
      · rw [if_pos hk2, if_pos hk2]
      · rw [if_neg hk2, if_neg hk2]
        exact ih

theorem psSetVal_mem (ps : Params) (k : String) (w : Val) (kp : String × ParamInstance)
    (h : kp ∈ psSetVal ps k w) :
    kp ∈ ps ∨ ∃ p, (k, p) ∈ ps ∧ kp = (k, { p with param := { p.param with value := w } }) := by
  induction ps with
  | nil => cases h
  | cons kp1 rest ih =>
    obtain ⟨k1, p1⟩ := kp1
    unfold psSetVal at h
    by_cases hk : k1 = k
    · rw [if_pos hk] at h
      cases h with
      | head =>
        subst hk
        exact Or.inr ⟨p1, List.mem_cons_self _ _, rfl⟩
      | tail _ h2 => exact Or.inl (List.mem_cons_of_mem _ h2)
    · rw [if_neg hk] at h
      cases h with
      | head => exact Or.inl (List.mem_cons_self _ _)
      | tail _ h2 =>
        cases ih h2 with
        | inl h3 => exact Or.inl (List.mem_cons_of_mem _ h3)
        | inr h3 =>
          obtain ⟨p, hp, he⟩ := h3
          exact Or.inr ⟨p, List.mem_cons_of_mem _ hp, he⟩

theorem alistLookup_of_mem_nodup {α : Type} (d : List (String × α)) (k : String) (a : α)
    (hnd : (d.map Prod.fst).Nodup) (h : (k, a) ∈ d) : alistLookup d k = some a := by
  induction d with
  | nil => cases h
  | cons kv rest ih =>
    obtain ⟨k1, a1⟩ := kv
    simp only [List.map_cons, List.nodup_cons] at hnd
    unfold alistLookup
    cases h with
    | head => rw [if_pos rfl]
    | tail _ h2 =>
      have hk : k1 ≠ k := by
        intro he
        exact hnd.1 (he ▸ List.mem_map_of_mem Prod.fst h2)
      rw [if_neg hk]
      exact ih hnd.2 h2

theorem alistLookup_map_mkInstance (specs : List (String × ParameterModel)) (k : String) :
    alistLookup (specs.map (fun km => (km.1, km.2.mkInstance))) k =
      (alistLookup specs k).map (fun m => m.mkInstance) := by
  induction specs with
  | nil => rfl
  | cons km rest ih =>
    obtain ⟨k1, m1⟩ := km
    simp only [List.map_cons]
    unfold alistLookup
    by_cases hk : k1 = k
    · rw [if_pos hk, if_pos hk]
      rfl
    · rw [if_neg hk, if_neg hk]
      exact ih

theorem alistKeys_map_mkInstance (specs : List (String × ParameterModel)) :
    alistKeys (specs.map (fun km => (km.1, km.2.mkInstance))) = alistKeys specs := by
  induction specs with
  | nil => rfl
  | cons km rest ih =>
    simp only [alistKeys, List.map_cons] at ih ⊢
    rw [ih]

theorem alistMapId {α : Type} (l : List α) (f : α → α) (h : ∀ x ∈ l, f x = x) :
    l.map f = l := by
  induction l with
  | nil => rfl
  | cons x rest ih =>
    simp only [List.map_cons]
    rw [h x (List.mem_cons_self _ _), ih (fun y hy => h y (List.mem_cons_of_mem _ hy))]

theorem alistLookup_none_keys_ne {α : Type} (d : List (String × α)) (k : String)
    (h : alistLookup d k = none) : ∀ kv ∈ d, kv.1 ≠ k := by
  intro kv hkv hk
  exact ((alistLookup_eq_none_iff d k).mp h) (hk ▸ List.mem_map_of_mem Prod.fst hkv)

theorem alistLookup_cons {α : Type} (a : String) (b : α) (l : List (String × α)) (k : String) :
    alistLookup ((a, b) :: l) k = if a = k then some b else alistLookup l k := rfl

theorem to_kwargs_keys_sub (rps : List (String × Parameter)) (k : String)
    (h : k ∈ alistKeys (rps.filterMap
        (fun kp => if kp.2.from_var then none else some (kp.1, kp.2.value)))) :
    k ∈ alistKeys rps := by
  induction rps with
  | nil => simp [alistKeys] at h
  | cons kp rest ih =>
    simp only [List.filterMap_cons] at h
    by_cases hf : kp.2.from_var = true
    · rw [if_pos hf] at h
      exact List.mem_cons_of_mem _ (ih h)
    · rw [if_neg hf] at h
      simp only [alistKeys, List.map_cons, List.mem_cons] at h ⊢
      cases h with
      | inl h2 => exact Or.inl h2
      | inr h2 => exact Or.inr (ih h2)

theorem to_kwargs_nodup (rps : List (String × Parameter))
    (hnd : (rps.map Prod.fst).Nodup) :
    ((rps.filterMap
        (fun kp => if kp.2.from_var then none else some (kp.1, kp.2.value))).map
      Prod.fst).Nodup := by
  induction rps with
  | nil => exact List.nodup_nil
  | cons kp rest ih =>
    simp only [List.map_cons, List.nodup_cons] at hnd
    simp only [List.filterMap_cons]
    by_cases hf : kp.2.from_var = true
    · rw [if_pos hf]
      exact ih hnd.2
    · rw [if_neg hf]
      simp only [List.map_cons, List.nodup_cons]
      exact ⟨fun hmem => hnd.1 (to_kwargs_keys_sub rest kp.1 hmem), ih hnd.2⟩

theorem to_kwargs_lookup (rps : List (String × Parameter)) (k : String)
    (hnd : (rps.map Prod.fst).Nodup) :
    alistLookup (rps.filterMap
        (fun kp => if kp.2.from_var then none else some (kp.1, kp.2.value))) k =
      (match alistLookup rps k with
       | some pr => if pr.from_var then none else some pr.value
       | none => none) := by
  induction rps with
  | nil => rfl
  | cons kp rest ih =>
    obtain ⟨k1, p1⟩ := kp
    simp only [List.map_cons, List.nodup_cons] at hnd
    simp only [List.filterMap_cons]
    by_cases hf : p1.from_var = true
    · rw [if_pos hf, alistLookup_cons]
      by_cases hk : k1 = k
      · rw [if_pos hk]
        dsimp only
        rw [if_pos hf]
        have h9 : k ∉ alistKeys (rest.filterMap
            (fun kp => if kp.2.from_var then none else some (kp.1, kp.2.value))) :=
          fun hm => (hk ▸ hnd.1) (to_kwargs_keys_sub rest k hm)
        exact (alistLookup_eq_none_iff _ _).mpr h9
      · rw [if_neg hk]
        exact ih hnd.2
    · rw [if_neg hf, alistLookup_cons, alistLookup_cons]
      by_cases hk : k1 = k
      · rw [if_pos hk, if_pos hk]
        dsimp only
        rw [if_neg hf]
      · rw [if_neg hk, if_neg hk]
        exact ih hnd.2

theorem setParamFromRun_value (c : DriverCommand) (key : String) (pr : Parameter)
    (p : ParamInstance) (w : Val)
    (hp : alistLookup c.params key = some p)
    (hfv : pr.from_var = false)
    (hw : validateValue p.model pr.value = .ok w) :
    setParamFromRun c key pr = .ok { c with params := psSetVal c.params key w } := by
  unfold setParamFromRun
  have h1 : alistHasKey c.params key = true := by
    unfold alistHasKey
    rw [hp]
    rfl
  rw [h1]
  simp only [Bool.not_true, Bool.false_eq_true, if_false]
  rw [if_pos hfv]
  rw [setParamValue_succeeds c.params key pr.value p w hp hw]

theorem setParamFromRun_identity (c : DriverCommand) (key : String) (pr : Parameter)
    (p : ParamInstance)
    (hp : alistLookup c.params key = some p)
    (hfv : pr.from_var = true)
    (hflags_p : ∀ kp ∈ c.params, kp.1 = key →
        kp.2.param.from_var = pr.from_var ∧ kp.2.param.var_name = pr.var_name)
    (hflags_m : ∀ km ∈ c.parameters, km.1 = key →
        km.2.from_var = pr.from_var ∧ km.2.var_name = pr.var_name) :
    setParamFromRun c key pr = .ok c := by
  unfold setParamFromRun
  have h1 : alistHasKey c.params key = true := by
    unfold alistHasKey
    rw [hp]
    rfl
  rw [h1]
  simp only [Bool.not_true, Bool.false_eq_true, if_false]
  rw [if_neg (by intro h; rw [hfv] at h; cases h)]
  have hmp : c.params.map (fun kp =>
      if kp.1 = key then
        (kp.1, { kp.2 with param := { kp.2.param with from_var := pr.from_var, var_name := pr.var_name } })
      else kp) = c.params := by
    apply alistMapId
    intro kp hkp
    by_cases hk : kp.1 = key
    · rw [if_pos hk]
      obtain ⟨h2, h3⟩ := hflags_p kp hkp hk
      rw [← h2, ← h3]
    · rw [if_neg hk]
  have hmg : c.parameters.map (fun km =>
      if km.1 = key then (km.1, { km.2 with from_var := pr.from_var, var_name := pr.var_name })
      else km) = c.parameters := by
    apply alistMapId
    intro km hkm
    by_cases hk : km.1 = key
    · rw [if_pos hk]
      obtain ⟨h2, h3⟩ := hflags_m km hkm hk
      rw [← h2, ← h3]
    · rw [if_neg hk]
  rw [hmp, hmg]

/-- Full characterisation of `set_param_values_from_run_command` on a
compatible run-parameter list: the loop succeeds touching only `params`,
preserves the shape, leaves keys outside the list and indirected entries
unchanged (their flag writes are identities), and stores the validated
value of each literal entry. -/
theorem setParamsFromRunLoop_char (rps : List (String × Parameter)) (c : DriverCommand)
    (hnd : (rps.map Prod.fst).Nodup)
    (hcomp : ∀ kv ∈ rps, ∃ p, alistLookup c.params kv.1 = some p ∧
        (if kv.2.from_var = true then
           (∀ kp ∈ c.params, kp.1 = kv.1 →
              kp.2.param.from_var = kv.2.from_var ∧ kp.2.param.var_name = kv.2.var_name) ∧
           (∀ km ∈ c.parameters, km.1 = kv.1 →
              km.2.from_var = kv.2.from_var ∧ km.2.var_name = kv.2.var_name)
         else ∃ w, validateValue p.model kv.2.value = .ok w)) :
    ∃ ps2, setParamsFromRunLoop c rps = .ok { c with params := ps2 } ∧
      paramShape ps2 = paramShape c.params ∧
      (∀ k, k ∉ rps.map Prod.fst → alistLookup ps2 k = alistLookup c.params k) ∧
      (∀ kv ∈ rps, kv.2.from_var = true →
        alistLookup ps2 kv.1 = alistLookup c.params kv.1) ∧
      (∀ kv ∈ rps, kv.2.from_var = false → ∀ p w, alistLookup c.params kv.1 = some p →
          validateValue p.model kv.2.value = .ok w →
          alistLookup ps2 kv.1 = some { p with param := { p.param with value := w } }) := by
  induction rps generalizing c with
  | nil =>
    refine ⟨c.params, rfl, rfl, fun k _ => rfl,
      fun kv hkv => absurd hkv (List.not_mem_nil _),
      fun kv hkv => absurd hkv (List.not_mem_nil _)⟩
  | cons kv0 rest ih =>
    obtain ⟨k0, pr0⟩ := kv0
    simp only [List.map_cons, List.nodup_cons] at hnd
    obtain ⟨p0, hp0, hcase0⟩ := hcomp (k0, pr0) (List.mem_cons_self _ _)
    by_cases hfv0 : pr0.from_var = true
    · rw [if_pos hfv0] at hcase0
      have hstep := setParamFromRun_identity c k0 pr0 p0 hp0 hfv0 hcase0.1 hcase0.2
      have hloop : setParamsFromRunLoop c ((k0, pr0) :: rest) = setParamsFromRunLoop c rest := by
        conv_lhs => unfold setParamsFromRunLoop
        rw [hstep]
      obtain ⟨ps2, hok, hsh, hout, htrue, hfalse⟩ := ih c hnd.2
        (fun kv hkv => hcomp kv (List.mem_cons_of_mem _ hkv))
      refine ⟨ps2, by rw [hloop]; exact hok, hsh, ?_, ?_, ?_⟩
      · intro k hk
        simp only [List.map_cons, List.mem_cons] at hk
        push_neg at hk
        exact hout k hk.2
      · intro kv hkv hfv
        cases hkv with
        | head => exact hout k0 hnd.1
        | tail _ h2 => exact htrue kv h2 hfv
      · intro kv hkv hfv p w hp hw
        cases hkv with
        | head => exact absurd hfv0 (by rw [hfv]; exact Bool.false_ne_true)
        | tail _ h2 => exact hfalse kv h2 hfv p w hp hw
    · rw [if_neg hfv0] at hcase0
      obtain ⟨w0, hw0⟩ := hcase0
      have hfv0' : pr0.from_var = false := by
        cases hb : pr0.from_var
        · rfl
        · exact absurd hb hfv0
      have hstep := setParamFromRun_value c k0 pr0 p0 w0 hp0 hfv0' hw0
      have hloop : setParamsFromRunLoop c ((k0, pr0) :: rest) =
          setParamsFromRunLoop { c with params := psSetVal c.params k0 w0 } rest := by
        conv_lhs => unfold setParamsFromRunLoop
        rw [hstep]
      have htr : ∀ kv ∈ rest,
          ∃ p, alistLookup ({ c with params := psSetVal c.params k0 w0 } :
              DriverCommand).params kv.1 = some p ∧
          (if kv.2.from_var = true then
             (∀ kp ∈ ({ c with params := psSetVal c.params k0 w0 } :
                  DriverCommand).params, kp.1 = kv.1 →
                kp.2.param.from_var = kv.2.from_var ∧ kp.2.param.var_name = kv.2.var_name) ∧
             (∀ km ∈ ({ c with params := psSetVal c.params k0 w0 } :
                  DriverCommand).parameters, km.1 = kv.1 →
                km.2.from_var = kv.2.from_var ∧ km.2.var_name = kv.2.var_name)
           else ∃ w, validateValue p.model kv.2.value = .ok w) := by
        intro kv hkv
        obtain ⟨p, hp, hcase⟩ := hcomp kv (List.mem_cons_of_mem _ hkv)
        have hkne : kv.1 ≠ k0 := fun he => hnd.1 (he ▸ List.mem_map_of_mem Prod.fst hkv)
        refine ⟨p, ?_, ?_⟩
        · exact (psSetVal_lookup_ne c.params k0 w0 kv.1 hkne).trans hp
        · by_cases hf : kv.2.from_var = true
          · rw [if_pos hf] at hcase ⊢
            refine ⟨?_, hcase.2⟩
            intro kp hkp hkeq
            cases psSetVal_mem c.params k0 w0 kp hkp with
            | inl h3 => exact hcase.1 kp h3 hkeq
            | inr h3 =>
              obtain ⟨q, _, he⟩ := h3
              exact absurd (hkeq ▸ congrArg Prod.fst he) hkne
          · rw [if_neg hf] at hcase ⊢
            exact hcase
      obtain ⟨ps2, hok, hsh, hout, htrue, hfalse⟩ :=
        ih { c with params := psSetVal c.params k0 w0 } hnd.2 htr
      have hsh2 : paramShape ps2 = paramShape c.params :=
        hsh.trans (psSetVal_shape c.params k0 w0)
      refine ⟨ps2, by rw [hloop]; exact hok, hsh2, ?_, ?_, ?_⟩
      · intro k hk
        simp only [List.map_cons, List.mem_cons] at hk
        push_neg at hk
        rw [hout k hk.2]
        exact psSetVal_lookup_ne c.params k0 w0 k hk.1
      · intro kv hkv hfv
        cases hkv with
        | head => exact absurd hfv (by rw [hfv0']; exact Bool.false_ne_true)
        | tail _ h2 =>
          have hkne : kv.1 ≠ k0 := fun he => hnd.1 (he ▸ List.mem_map_of_mem Prod.fst h2)
          rw [htrue kv h2 hfv]
          exact psSetVal_lookup_ne c.params k0 w0 kv.1 hkne
      · intro kv hkv hfv p w hp hw
        cases hkv with
        | head =>
          have hpe : p = p0 := by
            rw [hp] at hp0
            exact Option.some.inj hp0
          have hwe : w = w0 := by
            rw [← hpe] at hw0
            rw [hw0] at hw
            exact (Except.ok.inj hw).symm
          rw [hout k0 hnd.1]
          rw [show alistLookup ({ c with params := psSetVal c.params k0 w0 } :
                DriverCommand).params k0 = some { p0 with param := { p0.param with value := w0 } }
              from psSetVal_lookup_hit c.params k0 w0 p0 hp0]
          rw [hpe, hwe]
        | tail _ h2 =>
          have hkne : kv.1 ≠ k0 := fun he => hnd.1 (he ▸ List.mem_map_of_mem Prod.fst h2)
          exact hfalse kv h2 hfv p w
            ((psSetVal_lookup_ne c.params k0 w0 kv.1 hkne).trans hp) hw

/-- Characterisation of the `to_run_command` builder loop when no
`var_names` are given: the produced containers carry the models' keys and
indirection flags, the kwargs value (validated) where present, and the
model default otherwise. -/
theorem buildRunParameters_char (specs : List (String × ParameterModel)) (extras : KW)
    (rps : List (String × Parameter))
    (h : buildRunParameters specs [] extras = .ok rps) :
    rps.map Prod.fst = specs.map Prod.fst ∧
    (∀ k m, alistLookup specs k = some m →
      ∃ pr, alistLookup rps k = some pr ∧ pr.from_var = m.from_var ∧
        pr.var_name = m.var_name ∧
        (match alistLookup extras k with
         | some v => validateValue m v = .ok pr.value
         | none => pr.value = m.default)) := by
  induction specs generalizing rps with
  | nil =>
    unfold buildRunParameters at h
    cases h
    exact ⟨rfl, fun k m hm => by cases hm⟩
  | cons km rest ih =>
    obtain ⟨key, m0⟩ := km
    unfold buildRunParameters at h
    simp only [alistLookup] at h
    cases hl : alistLookup extras key with
    | none =>
      rw [hl] at h
      dsimp only at h
      cases hb : buildRunParameters rest [] extras with
      | error e =>
        rw [hb] at h
        cases h
      | ok ps' =>
        rw [hb] at h
        dsimp only at h
        have hre : rps = (key, (m0.mkInstance).param) :: ps' := (Except.ok.inj h).symm
        subst hre
        obtain ⟨hkeys, hchar⟩ := ih ps' hb
        constructor
        · simp only [List.map_cons]
          rw [hkeys]
        · intro k m hm
          rw [alistLookup_cons] at hm
          rw [alistLookup_cons]
          by_cases hk : key = k
          · rw [if_pos hk] at hm
            have hme : m0 = m := Option.some.inj hm
            subst hme
            subst hk
            rw [if_pos rfl, hl]
            exact ⟨(m0.mkInstance).param, rfl, rfl, rfl, rfl⟩
          · rw [if_neg hk] at hm
            rw [if_neg hk]
            exact hchar k m hm
    | some v =>
      rw [hl] at h
      dsimp only at h
      cases hs : ParamInstance.setValue (m0.mkInstance) v with
      | error e =>
        rw [hs] at h
        cases h
      | ok p2 =>
        rw [hs] at h
        dsimp only at h
        cases hb : buildRunParameters rest [] extras with
        | error e =>
          rw [hb] at h
          cases h
        | ok ps' =>
          rw [hb] at h
          dsimp only at h
          have hre : rps = (key, p2.param) :: ps' := (Except.ok.inj h).symm
          subst hre
          unfold ParamInstance.setValue at hs
          cases hvv : validateValue (m0.mkInstance).model v with
          | error e =>
            rw [hvv] at hs
            cases hs
          | ok w =>
            rw [hvv] at hs
            have hp2 : ({ m0.mkInstance with
                param := { (m0.mkInstance).param with value := w } } : ParamInstance) = p2 :=
              Except.ok.inj hs
            obtain ⟨hkeys, hchar⟩ := ih ps' hb
            constructor
            · simp only [List.map_cons]
              rw [hkeys]
            · intro k m hm
              rw [alistLookup_cons] at hm
              rw [alistLookup_cons]
              by_cases hk : key = k
              · rw [if_pos hk] at hm
                have hme : m0 = m := Option.some.inj hm
                subst hme
                subst hk
                rw [if_pos rfl, hl]
                refine ⟨p2.param, rfl, ?_, ?_, ?_⟩
                · rw [← hp2]
                  rfl
                · rw [← hp2]
                  rfl
                · rw [← hp2]
                  exact hvv
              · rw [if_neg hk] at hm
                rw [if_neg hk]
                exact hchar k m hm

/-- Inversion of a successful `to_run_command` call with no `var_names`:
the builder loop succeeded and the run command carries the info command's
identity, the defaulted `save_vars` and the built containers. -/
theorem to_run_command_ok_inv (ic : InfoCommand) (save_vars : Option SV) (kwargs : KW)
    (rc : RunCommand) (h : ic.to_run_command none save_vars kwargs = .ok rc) :
    ∃ rps, buildRunParameters ic.parameters [] kwargs = .ok rps ∧
      rc = { name := ic.name, microservice := ic.microservice, uuid := ic.uuid,
             save_vars := save_vars.getD [], parameters := rps } := by
  unfold InfoCommand.to_run_command at h
  simp only [Option.getD_none] at h
  have hkw : (if (List.any kwargs fun kv => !(alistHasKey ic.parameters kv.1)) = true then
        (do
          throw ToRunErr.unknownKwargKey
          let ps ← buildRunParameters ic.parameters [] kwargs
          pure { name := ic.name, microservice := ic.microservice, uuid := ic.uuid,
                 save_vars := save_vars.getD [], parameters := ps } : Except ToRunErr RunCommand)
      else
        (do
          let ps ← buildRunParameters ic.parameters [] kwargs
          pure { name := ic.name, microservice := ic.microservice, uuid := ic.uuid,
                 save_vars := save_vars.getD [], parameters := ps } :
          Except ToRunErr RunCommand)) = .ok rc →
      ∃ rps, buildRunParameters ic.parameters [] kwargs = .ok rps ∧
        rc = { name := ic.name, microservice := ic.microservice, uuid := ic.uuid,
               save_vars := save_vars.getD [], parameters := rps } := by
    intro h2
    by_cases hany : (List.any kwargs fun kv => !(alistHasKey ic.parameters kv.1)) = true
    · rw [if_pos hany, except_throw_bind] at h2
      cases h2
    · rw [if_neg hany] at h2
      cases hb : buildRunParameters ic.parameters [] kwargs with
      | error e =>
        rw [hb, except_error_bind] at h2
        cases h2
      | ok ps =>
        rw [hb, except_ok_bind, except_pure_eq_ok] at h2
        exact ⟨ps, rfl, (Except.ok.inj h2).symm⟩
  cases hrs : ic.return_signature with
  | none =>
    rw [hrs] at h
    dsimp only at h
    exact hkw h
  | some rs =>
    rw [hrs] at h
    dsimp only at h
    by_cases hlen : rs.length > 0
    · rw [if_pos hlen] at h
      cases hfk : List.find? (fun kv => !(alistHasKey rs kv.1)) (save_vars.getD []) with
      | some kv =>
        rw [hfk] at h
        dsimp only at h
        rw [except_throw_bind] at h
        cases h
      | none =>
        rw [hfk] at h
        dsimp only at h
        exact hkw h
    · rw [if_neg hlen] at h
      exact hkw h

/-- `interpret_and_run_workflow` on a one-command workflow whose
interpretation produced the single driver command `c`: the result log is
the wrapped outcome of the one `__call__` with empty globals, the run
command's `save_vars` and its `to_kwargs`. -/
theorem interpretAndRun_single (lib : DriverCommandLibrary) (c : DriverCommand)
    (lib2 : DriverCommandLibrary) (rc : RunCommand) (wname : String)
    (hiw : interpretWorkflow lib { name := wname, commands := [rc] } =
      .ok ({ name := wname, commands := [c], wf_globals := [] }, lib2)) :
    (interpretAndRunWorkflow lib { name := wname, commands := [rc] }).1 =
      (match (c.invoke (some []) (some rc.save_vars) rc.to_kwargs).ret with
       | .ok r => .ok [r]
       | .error e => .error (.exec (.stepFailed e))) := by
  unfold interpretAndRunWorkflow
  rw [hiw]
  dsimp only
  unfold DriverWorkflow.exec
  dsimp only [List.map_cons, List.map_nil, Option.getD_some]
  rw [if_neg (fun h => h rfl), if_neg (fun h => h rfl)]
  dsimp only [List.zip, List.zipWith]
  unfold execSteps
  dsimp only
  cases hret : (c.invoke (some []) (some rc.save_vars) rc.to_kwargs).ret with
  | ok r => rfl
  | error e => rfl

/-- C5 (corrected): round-trip equivalence of `to_run_command` plus
`interpret_and_run_workflow` against a direct `__call__`, in the setting
where the original claim can hold: no `var_names` indirection is
requested, every extra value targets a declared non-indirected parameter
and passes its container's validation, the declared defaults re-validate
to themselves, the declared parameter keys and the extras keys are
duplicate-free, the registered command's working containers are pristine,
and the direct call receives the same empty globals the interpreter
creates.  Then interpreting and running the one-command workflow produces
exactly the wrapped outcome of `dc(wf_globals={}, save_vars, **extras)`
— the same callable applied to the same resolved argument values. -/
theorem C5_amended (lib : DriverCommandLibrary) (ms : DriverMicroservice)
    (dc : DriverCommand) (sv : SV) (extras : KW) (rc : RunCommand) (wname : String)
    (hms : alistLookup lib.microservices dc.microservice = some ms)
    (hcmd : alistLookup ms.commands dc.name = some dc)
    (hpristine : dc.params = dc.parameters.map (fun km => (km.1, km.2.mkInstance)))
    (hnd : (dc.parameters.map Prod.fst).Nodup)
    (hnde : (extras.map Prod.fst).Nodup)
    (hextras : ∀ kv ∈ extras, ∃ m, alistLookup dc.parameters kv.1 = some m ∧
        m.from_var = false ∧ ∃ w, validateValue m kv.2 = .ok w)
    (hdef : ∀ km ∈ dc.parameters, validateValue km.2 km.2.default = .ok km.2.default)
    (hrc : dc.to_info_command.to_run_command none (some sv) extras = .ok rc) :
    (interpretAndRunWorkflow lib { name := wname, commands := [rc] }).1 =
      (match (dc.invoke (some []) (some sv) extras).ret with
       | .ok r => .ok [r]
       | .error e => .error (.exec (.stepFailed e))) := by
  obtain ⟨rps, hbuild, hrceq⟩ := to_run_command_ok_inv dc.to_info_command (some sv) extras rc hrc
  have hsv : rc.save_vars = sv := by
    rw [hrceq]
    rfl
  have hpar : rc.parameters = rps := by rw [hrceq]
  have hmsn : rc.microservice = dc.microservice := by
    rw [hrceq]
    rfl
  have hnm : rc.name = dc.name := by
    rw [hrceq]
    rfl
  have htk : rc.to_kwargs = rps.filterMap
      (fun kp => if kp.2.from_var then none else some (kp.1, kp.2.value)) := by
    unfold RunCommand.to_kwargs
    rw [hpar]
  obtain ⟨hkeys_rps, hchar⟩ := buildRunParameters_char dc.parameters extras rps hbuild
  have hnd_rps : (rps.map Prod.fst).Nodup := by
    rw [hkeys_rps]
    exact hnd
  have hlookP : ∀ k m, alistLookup dc.parameters k = some m →
      alistLookup dc.params k = some m.mkInstance := by
    intro k m hm
    rw [hpristine, alistLookup_map_mkInstance, hm]
    rfl
  have hmodelA : ∀ kv, kv ∈ rps → ∃ m, alistLookup dc.parameters kv.1 = some m ∧
      kv.2.from_var = m.from_var ∧ kv.2.var_name = m.var_name ∧
      (match alistLookup extras kv.1 with
       | some v => validateValue m v = .ok kv.2.value
       | none => kv.2.value = m.default) := by
    intro kv hkv
    have hlk : alistLookup rps kv.1 = some kv.2 :=
      alistLookup_of_mem_nodup rps kv.1 kv.2 hnd_rps hkv
    have hkmem : kv.1 ∈ dc.parameters.map Prod.fst := by
      rw [← hkeys_rps]
      exact List.mem_map_of_mem Prod.fst hkv
    cases hm : alistLookup dc.parameters kv.1 with
    | none => exact absurd hkmem ((alistLookup_eq_none_iff _ _).mp hm)
    | some m =>
      obtain ⟨pr, hpr, hprf, hprv, hprval⟩ := hchar kv.1 m hm
      have hpre : pr = kv.2 := by
        rw [hlk] at hpr
        exact (Option.some.inj hpr).symm
      subst hpre
      exact ⟨m, rfl, hprf, hprv, hprval⟩
  have hselfval : ∀ kv m, kv ∈ rps → alistLookup dc.parameters kv.1 = some m →
      (match alistLookup extras kv.1 with
       | some v => validateValue m v = .ok kv.2.value
       | none => kv.2.value = m.default) →
      validateValue m kv.2.value = .ok kv.2.value := by
    intro kv m _ hm hmatch
    cases hle : alistLookup extras kv.1 with
    | some v =>
      rw [hle] at hmatch
      dsimp only at hmatch
      exact validateValue_idem m v kv.2.value hmatch
    | none =>
      rw [hle] at hmatch
      dsimp only at hmatch
      rw [hmatch]
      exact hdef (kv.1, m) (alistLookup_mem dc.parameters kv.1 m hm)
  have hcomp : ∀ kv ∈ rps, ∃ p, alistLookup dc.params kv.1 = some p ∧
      (if kv.2.from_var = true then
         (∀ kp ∈ dc.params, kp.1 = kv.1 →
            kp.2.param.from_var = kv.2.from_var ∧ kp.2.param.var_name = kv.2.var_name) ∧
         (∀ km ∈ dc.parameters, km.1 = kv.1 →
            km.2.from_var = kv.2.from_var ∧ km.2.var_name = kv.2.var_name)
       else ∃ w, validateValue p.model kv.2.value = .ok w) := by
    intro kv hkv
    obtain ⟨m, hm, hprf, hprv, hprval⟩ := hmodelA kv hkv
    refine ⟨m.mkInstance, hlookP kv.1 m hm, ?_⟩
    by_cases hf : kv.2.from_var = true
    · rw [if_pos hf]
      have hmflags : ∀ km2, km2 ∈ dc.parameters → km2.1 = kv.1 →
          km2.2.from_var = kv.2.from_var ∧ km2.2.var_name = kv.2.var_name := by
        intro km2 hkm2 hke
        have hlk2 : alistLookup dc.parameters km2.1 = some km2.2 :=
          alistLookup_of_mem_nodup dc.parameters km2.1 km2.2 hnd hkm2
        rw [hke, hm] at hlk2
        have hme : m = km2.2 := Option.some.inj hlk2
        constructor
        · rw [← hme, ← hprf]
        · rw [← hme, ← hprv]
      constructor
      · intro kp hkp hke
        rw [hpristine] at hkp
        obtain ⟨km2, hkm2, hke2⟩ := List.mem_map.mp hkp
        have hk1 : km2.1 = kv.1 := by rw [← hke, ← hke2]
        obtain ⟨hf1, hf2⟩ := hmflags km2 hkm2 hk1
        constructor
        · rw [← hke2]
          exact hf1
        · rw [← hke2]
          exact hf2
      · exact hmflags
    · rw [if_neg hf]
      exact ⟨kv.2.value, hselfval kv m hkv hm hprval⟩
  obtain ⟨P1, hloopok, hshP1, houtP1, htrueP1, hfalseP1⟩ :=
    setParamsFromRunLoop_char rps dc hnd_rps hcomp
  have hsppc : dc.set_param_values_from_run_command rc = .ok { dc with params := P1 } := by
    unfold DriverCommand.set_param_values_from_run_command
    rw [hpar]
    exact hloopok
  have hstep : interpretWorkflowStep lib rc =
      .ok ({ dc with params := P1 },
        libraryShareMutation lib dc.microservice dc.name { dc with params := P1 }) := by
    unfold interpretWorkflowStep
    rw [hmsn, hnm, hms]
    dsimp only
    rw [hcmd]
    dsimp only
    rw [hsppc]
  have hloop1 : interpretWorkflowLoop lib [rc] =
      .ok ([{ dc with params := P1 }],
        libraryShareMutation lib dc.microservice dc.name { dc with params := P1 }) := by
    conv_lhs => unfold interpretWorkflowLoop
    rw [hstep]
    rfl
  have hiw : interpretWorkflow lib { name := wname, commands := [rc] } =
      .ok ({ name := wname, commands := [{ dc with params := P1 }], wf_globals := [] },
        libraryShareMutation lib dc.microservice dc.name { dc with params := P1 }) := by
    unfold interpretWorkflow
    dsimp only
    rw [hloop1]
  have hvalidB : ∀ kv ∈ extras, ∀ p, alistLookup dc.params kv.1 = some p →
      ∃ w, validateValue p.model kv.2 = .ok w := by
    intro kv hkv p hp
    obtain ⟨m, hm, _, w, hw⟩ := hextras kv hkv
    have hq := hlookP kv.1 m hm
    rw [hp] at hq
    have hpe : p = m.mkInstance := Option.some.inj hq
    subst hpe
    exact ⟨w, hw⟩
  obtain ⟨SB, hSB⟩ := applyKwargsLoop_ok_of_valid extras dc.params hvalidB
  have hupB : updateParameters dc.params [] extras = (SB, none) :=
    updateParameters_empty_globals dc.params extras SB hSB
  have hfindB : List.find? (fun kv => !(alistHasKey dc.params kv.1)) extras = none := by
    rw [List.find?_eq_none]
    intro kv hkv
    obtain ⟨m, hm, _, _, _⟩ := hextras kv hkv
    have hq := hlookP kv.1 m hm
    simp [alistHasKey, hq]
  have hndA : ((rps.filterMap
      (fun kp => if kp.2.from_var then none else some (kp.1, kp.2.value))).map
    Prod.fst).Nodup := to_kwargs_nodup rps hnd_rps
  have hmemA : ∀ kv ∈ rps.filterMap
      (fun kp => if kp.2.from_var then none else some (kp.1, kp.2.value)),
      ∃ pr, (kv.1, pr) ∈ rps ∧ pr.from_var = false ∧ kv.2 = pr.value := by
    intro kv hkv
    obtain ⟨kp, hkp, hfe⟩ := List.mem_filterMap.mp hkv
    by_cases hfb : kp.2.from_var = true
    · rw [if_pos hfb] at hfe
      cases hfe
    · rw [if_neg hfb] at hfe
      have h1 : (kp.1, kp.2.value) = kv := Option.some.inj hfe
      have hk1 : kp.1 = kv.1 := congrArg Prod.fst h1
      refine ⟨kp.2, ?_, ?_, ?_⟩
      · rw [← hk1]
        exact hkp
      · cases hb : kp.2.from_var
        · rfl
        · exact absurd hb hfb
      · exact (congrArg Prod.snd h1).symm
  have hvalidA : ∀ kv ∈ rps.filterMap
      (fun kp => if kp.2.from_var then none else some (kp.1, kp.2.value)),
      ∀ p, alistLookup P1 kv.1 = some p → ∃ w, validateValue p.model kv.2 = .ok w := by
    intro kv hkv p hp
    obtain ⟨pr, hmem, _, hve⟩ := hmemA kv hkv
    obtain ⟨m, hm, _, _, hprval⟩ := hmodelA (kv.1, pr) hmem
    have hval : validateValue m pr.value = .ok pr.value := hselfval (kv.1, pr) m hmem hm hprval
    obtain ⟨p', hp', he⟩ := paramShape_lookup P1 dc.params kv.1 hshP1
      (m.mkInstance) (hlookP kv.1 m hm)
    rw [hp] at hp'
    have hpe : p = p' := Option.some.inj hp'
    have hmod : p.model = m := by
      rw [hpe]
      have h4 := congrArg ParamInstance.model he
      exact h4
    exact ⟨pr.value, by rw [hmod, hve]; exact hval⟩
  obtain ⟨SA, hSA⟩ := applyKwargsLoop_ok_of_valid _ P1 hvalidA
  have hupA : updateParameters P1 []
      (rps.filterMap (fun kp => if kp.2.from_var then none else some (kp.1, kp.2.value))) =
      (SA, none) := updateParameters_empty_globals _ _ _ hSA
  have hfindA : List.find? (fun kv => !(alistHasKey P1 kv.1))
      (rps.filterMap (fun kp => if kp.2.from_var then none else some (kp.1, kp.2.value))) =
      none := by
    rw [List.find?_eq_none]
    intro kv hkv
    obtain ⟨pr, hmem, _, _⟩ := hmemA kv hkv
    obtain ⟨m, hm, _, _, _⟩ := hmodelA (kv.1, pr) hmem
    obtain ⟨p', hp', _⟩ := paramShape_lookup P1 dc.params kv.1 hshP1
      (m.mkInstance) (hlookP kv.1 m hm)
    simp [alistHasKey, hp']
  have hkeysP : alistKeys dc.params = dc.parameters.map Prod.fst := by
    rw [hpristine, alistKeys_map_mkInstance]
    rfl
  have hkeysSA : alistKeys SA = alistKeys dc.params := by
    rw [← paramShape_keys SA, applyKwargsLoop_shape_ok P1 _ SA hSA, hshP1, paramShape_keys]
  have hkeysSB : alistKeys SB = alistKeys dc.params := by
    rw [← paramShape_keys SB, applyKwargsLoop_shape_ok dc.params extras SB hSB, paramShape_keys]
  have hndSA : (alistKeys SA).Nodup := by
    rw [hkeysSA, hkeysP]
    exact hnd
  have hshapeAB : paramShape SA = paramShape SB := by
    rw [applyKwargsLoop_shape_ok P1 _ SA hSA, hshP1,
      applyKwargsLoop_shape_ok dc.params extras SB hSB]
  have hSASB : SA = SB := by
    apply params_ext SA SB hndSA hshapeAB
    intro k
    cases hm : alistLookup dc.parameters k with
    | none =>
      have hq : alistLookup dc.params k = none := by
        rw [hpristine, alistLookup_map_mkInstance, hm]
        rfl
      have hknot : k ∉ alistKeys dc.params := (alistLookup_eq_none_iff _ _).mp hq
      rw [(alistLookup_eq_none_iff SA k).mpr (by rw [hkeysSA]; exact hknot),
          (alistLookup_eq_none_iff SB k).mpr (by rw [hkeysSB]; exact hknot)]
    | some m =>
      have hq : alistLookup dc.params k = some m.mkInstance := hlookP k m hm
      obtain ⟨pr, hpr, hprf, hprv, hprval⟩ := hchar k m hm
      have hmemrps : (k, pr) ∈ rps := alistLookup_mem rps k pr hpr
      by_cases hf : m.from_var = true
      · have hprft : pr.from_var = true := by
          rw [hprf]
          exact hf
        have hBne : ∀ kv ∈ extras, kv.1 ≠ k := by
          intro kv hkv hke
          obtain ⟨m2, hm2, hm2f, _, _⟩ := hextras kv hkv
          rw [hke, hm] at hm2
          have hme : m = m2 := Option.some.inj hm2
          rw [← hme] at hm2f
          rw [hm2f] at hf
          cases hf
        have hAnone : alistLookup (rps.filterMap
            (fun kp => if kp.2.from_var then none else some (kp.1, kp.2.value))) k = none := by
          rw [to_kwargs_lookup rps k hnd_rps, hpr]
          dsimp only
          rw [if_pos hprft]
        have hAne := alistLookup_none_keys_ne _ k hAnone
        have hP1k : alistLookup P1 k = some m.mkInstance := by
          rw [htrueP1 (k, pr) hmemrps hprft]
          exact hq
        rw [applyKwargsLoop_preserves P1 _ SA k (m.mkInstance) hSA hP1k hAne,
            applyKwargsLoop_preserves dc.params extras SB k (m.mkInstance) hSB hq hBne]
      · have hff : m.from_var = false := by
          cases hb : m.from_var
          · rfl
          · exact absurd hb hf
        have hprff : pr.from_var = false := by
          rw [hprf]
          exact hff
        have hval : validateValue m pr.value = .ok pr.value :=
          hselfval (k, pr) m hmemrps hm hprval
        have hP1k : alistLookup P1 k =
            some { m.mkInstance with param := { (m.mkInstance).param with value := pr.value } } :=
          hfalseP1 (k, pr) hmemrps hprff (m.mkInstance) pr.value hq hval
        have hAk : alistLookup (rps.filterMap
            (fun kp => if kp.2.from_var then none else some (kp.1, kp.2.value))) k =
            some pr.value := by
          rw [to_kwargs_lookup rps k hnd_rps, hpr]
          dsimp only
          rw [if_neg (by rw [hprff]; exact Bool.false_ne_true)]
        have hAmem : (k, pr.value) ∈ rps.filterMap
            (fun kp => if kp.2.from_var then none else some (kp.1, kp.2.value)) :=
          alistLookup_mem _ k pr.value hAk
        have hSAk := applyKwargsLoop_write _ P1 SA k pr.value
            ({ m.mkInstance with param := { (m.mkInstance).param with value := pr.value } })
            pr.value hndA hSA hAmem hP1k hval
        cases hle : alistLookup extras k with
        | some v =>
          have hBmem : (k, v) ∈ extras := alistLookup_mem extras k v hle
          rw [hle] at hprval
          dsimp only at hprval
          have hSBk := applyKwargsLoop_write extras dc.params SB k v (m.mkInstance)
            pr.value hnde hSB hBmem hq hprval
          rw [hSAk, hSBk]
        | none =>
          have hBne := alistLookup_none_keys_ne extras k hle
          have hSBk := applyKwargsLoop_preserves dc.params extras SB k (m.mkInstance) hSB hq hBne
          rw [hle] at hprval
          dsimp only at hprval
          rw [hSAk, hSBk, hprval]
          rfl
  have hupA2 : updateParameters P1 []
      (rps.filterMap (fun kp => if kp.2.from_var then none else some (kp.1, kp.2.value))) =
      (SB, none) := by
    rw [hupA, hSASB]
  have hinv : DriverCommand.invoke { dc with params := P1 } (some []) (some sv)
      (rps.filterMap (fun kp => if kp.2.from_var then none else some (kp.1, kp.2.value))) =
      DriverCommand.invoke dc (some []) (some sv) extras := by
    unfold DriverCommand.invoke
    dsimp only
    rw [hfindA, hfindB]
    dsimp only
    simp only [Option.getD_some]
    rw [hupA2, hupB]
  rw [interpretAndRun_single lib { dc with params := P1 }
      (libraryShareMutation lib dc.microservice dc.name { dc with params := P1 }) rc wname hiw]
  rw [hsv, htk, hinv]

/-- The registered driver command for the round-trip examples: one
integer parameter `p: int[0,10]` defaulting to 5, bound to the echoing
callable. -/
def c5cmd : DriverCommand :=
  mkDriverCommand "c5" "m5" "55555555-5555-5555-5555-555555555555" ""
    [("p", intRange "p" 0 10 5)] echoFn true none

def c5lib : DriverCommandLibrary :=
  { name := "lib5"
    microservices :=
      [("m5", { name := "m5", uuid := "55555555-5555-5555-5555-555555555555",
                commands := [("c5", c5cmd)] })] }

/-- The run command produced by
`to_run_command(var_names={"p": "g"}, save_vars=[], p=3)`: the container
is flagged indirected and still carries the literal 3. -/
def c5rc : RunCommand :=
  { name := "c5", microservice := "m5", uuid := "55555555-5555-5555-5555-555555555555",
    save_vars := [],
    parameters := [("p", { value := iv 3, from_var := true, var_name := "g" })] }

/-- The run command produced by
`to_run_command(save_vars=[], p=3)` with no indirection. -/
def c5rcW : RunCommand :=
  { name := "c5", microservice := "m5", uuid := "55555555-5555-5555-5555-555555555555",
    save_vars := [], parameters := [("p", { value := iv 3 })] }

/-- C5 (counterexample): the round-trip equivalence fails as soon as
`to_run_command` is given a non-empty `variableNames`.  The produced run
command flags `p` as indirected while still carrying the literal 3;
`set_param_values_from_run_command` copies only the flags for indirected
parameters and drops the value, and the interpreted workflow runs with
fresh empty globals, so the callable receives the template default 5.
The direct `__call__` with the same extra values receives 3: the
interpreted run and the direct run invoke the callable with different
resolved argument values. -/
theorem C5_counterexample :
    c5cmd.to_info_command.to_run_command (some [("p", "g")]) (some []) [("p", iv 3)] =
      .ok c5rc ∧
    (interpretAndRunWorkflow c5lib { name := "w5", commands := [c5rc] }).1 =
      .ok [some [("p", iv 5)]] ∧
    (c5cmd.invoke (some []) (some []) [("p", iv 3)]).ret = .ok (some [("p", iv 3)]) ∧
    (interpretAndRunWorkflow c5lib { name := "w5", commands := [c5rc] }).1 ≠
      (match (c5cmd.invoke (some []) (some []) [("p", iv 3)]).ret with
       | .ok r => .ok [r]
       | .error e => .error (.exec (.stepFailed e))) :=
  ⟨rfl, rfl, rfl, by decide⟩

/-- Witness for C5 (amended): on the concrete one-parameter command, with
no `var_names`, `save_vars = []` and extras `p=3`, the amended theorem
applies and both paths produce the log `[{p: 3}]`. -/
theorem C5_witness :
    (interpretAndRunWorkflow c5lib { name := "w5", commands := [c5rcW] }).1 =
      (match (c5cmd.invoke (some []) (some []) [("p", iv 3)]).ret with
       | .ok r => .ok [r]
       | .error e => .error (.exec (.stepFailed e))) :=
  C5_amended c5lib
    { name := "m5", uuid := "55555555-5555-5555-5555-555555555555",
      commands := [("c5", c5cmd)] }
    c5cmd [] [("p", iv 3)] c5rcW "w5"
    rfl rfl rfl (by decide) (by decide)
    (by
      intro kv hkv
      rw [List.mem_singleton] at hkv
      subst hkv
      exact ⟨intRange "p" 0 10 5, rfl, rfl, ⟨iv 3, rfl⟩⟩)
    (by decide)
    rfl

end Sciborg
